import Mathlib

/-!
Verification development for the pg_ai_query query-generation pipeline.

The definitions below are shallow embeddings of the C++ sources
(config.cpp, utils.cpp, core/ai_client_factory.cpp,
core/response_formatter.cpp).  Strings are modelled as `List Char` where
character-level scanning matters; machine `int` is modelled as `Int` with
the 32-bit range checks made explicit where the source can throw
`std::out_of_range`.  C++ functions that throw are modelled with `Option`
(`none` = the call failed / threw).  External collaborators (file system,
nlohmann JSON parsing, the vendor SDK client constructors) are modelled as
explicit parameters or as records of their construction arguments.
-/

namespace PgAi

/-! ### C-locale character classification (cctype with the default locale) -/

/-- C `isspace` in the default locale: space, \t, \n, \v, \f, \r. -/
def cIsSpace (c : Char) : Bool :=
  c = ' ' || c = '\t' || c = '\n' || c = Char.ofNat 11 || c = Char.ofNat 12 || c = '\r'

/-- The character set of `" \t"` used by the `find_first_not_of`/`find_last_not_of`
trimming calls in config.cpp. -/
def cIsBlank (c : Char) : Bool := c = ' ' || c = '\t'

def cIsDigit (c : Char) : Bool := '0' ≤ c && c ≤ '9'

def cIsAlpha (c : Char) : Bool := ('a' ≤ c && c ≤ 'z') || ('A' ≤ c && c ≤ 'Z')

/-- C `isalnum` in the default locale (ASCII letters and digits only). -/
def cIsAlnum (c : Char) : Bool := cIsAlpha c || cIsDigit c

/-- C `tolower` in the default locale: maps A-Z to a-z, all else unchanged. -/
def cToLower (c : Char) : Char :=
  if 'A' ≤ c && c ≤ 'Z' then Char.ofNat (c.toNat + 32) else c

/-- The token characters of `is_select_only_query`: `isalnum(c) || c == '_'`. -/
def isWordChar (c : Char) : Bool := cIsAlnum c || c = '_'

/-! ### utils.cpp: `is_select_only_query` -/

/-- The `skip_whitespace` helper of `is_select_only_query`: advance past
C-whitespace. -/
def skipWs (l : List Char) : List Char := l.dropWhile (fun c => cIsSpace c)

/-- The body of `skip_single_line_comment` after the leading `--` has been
consumed: `while (i < n && s[i] != '\n') ++i;` — stops at the newline without
consuming it. -/
def dropLineBody (l : List Char) : List Char := l.dropWhile (fun c => !(c = '\n'))

/-- Index of the first adjacent `*` `/` pair, if any. -/
def findStarSlashIdx : List Char → Option Nat
  | c₁ :: c₂ :: rest =>
    if c₁ = '*' && c₂ = '/' then some 0
    else (findStarSlashIdx (c₂ :: rest)).map (· + 1)
  | _ => none

/-- The body of `skip_block_comment` after the leading `/*` has been consumed:
`while (i + 1 < n && !(s[i]=='*' && s[i+1]=='/')) ++i; if (i + 1 < n) i += 2;`.
When a closing `*/` exists at index `i` the scan resumes after it; otherwise
the cursor is left on the last character (or at the end for short inputs). -/
def dropBlockBody (l : List Char) : List Char :=
  match findStarSlashIdx l with
  | some i => l.drop (i + 2)
  | none => l.drop (l.length - 1)

/-- The comment-skipping loop of `is_select_only_query`: repeatedly consume a
`--` line comment or a `/* */` block comment followed by whitespace, until
neither comment opener is present. -/
def skipComments (l : List Char) : List Char :=
  match l with
  | c₁ :: c₂ :: rest =>
    if c₁ = '-' && c₂ = '-' then skipComments (skipWs (dropLineBody rest))
    else if c₁ = '/' && c₂ = '*' then skipComments (skipWs (dropBlockBody rest))
    else c₁ :: c₂ :: rest
  | l => l
termination_by l.length
decreasing_by
  · have h₁ : (skipWs (dropLineBody rest)).length ≤ (dropLineBody rest).length :=
      (List.dropWhile_suffix _).length_le
    have h₂ : (dropLineBody rest).length ≤ rest.length :=
      (List.dropWhile_suffix _).length_le
    simp only [List.length_cons]
    omega
  · have h₁ : (skipWs (dropBlockBody rest)).length ≤ (dropBlockBody rest).length :=
      (List.dropWhile_suffix _).length_le
    have h₂ : (dropBlockBody rest).length ≤ rest.length := by
      unfold dropBlockBody
      cases findStarSlashIdx rest <;> simp [List.length_drop]
    simp only [List.length_cons]
    omega

/-- Shallow embedding of `pg_ai::utils::is_select_only_query` (utils.cpp):
skip leading whitespace and comments, read the maximal run of
alphanumeric/underscore characters, lower-case it and compare with
`"select"`. -/
def is_select_only_query (s : List Char) : Bool :=
  let t := skipComments (skipWs s)
  let tok := t.takeWhile (fun c => isWordChar c)
  !tok.isEmpty && decide (tok.map cToLower = "select".toList)

/-! ### A generative model of "leading whitespace and comments"

`JunkItem` describes one piece of ignorable prefix exactly as the spec
describes it: a whitespace character, a `--` line comment (terminated by a
newline), or a terminated `/* */` block comment. -/

inductive JunkItem where
  | ws (c : Char)
  | line (body : List Char)
  | block (body : List Char)
deriving DecidableEq

/-- Render a junk item list back into the concrete character stream. -/
def renderJunk : List JunkItem → List Char
  | [] => []
  | JunkItem.ws c :: js => c :: renderJunk js
  | JunkItem.line b :: js => '-' :: '-' :: (b ++ '\n' :: renderJunk js)
  | JunkItem.block b :: js => '/' :: '*' :: (b ++ '*' :: '/' :: renderJunk js)

/-- `true` when no two adjacent characters form `*` `/`. -/
def noStarSlash : List Char → Bool
  | c₁ :: c₂ :: rest => !(c₁ = '*' && c₂ = '/') && noStarSlash (c₂ :: rest)
  | _ => true

/-- Well-formedness of a junk prefix: whitespace items hold whitespace
characters, line-comment bodies contain no newline, block-comment bodies do
not contain a premature terminator. -/
def junkOK : List JunkItem → Bool
  | [] => true
  | JunkItem.ws c :: js => cIsSpace c && junkOK js
  | JunkItem.line b :: js => b.all (fun c => !(c = '\n')) && junkOK js
  | JunkItem.block b :: js => noStarSlash b && junkOK js

/-! ### constants.hpp -/

def PROVIDER_OPENAI : String := "openai"
def PROVIDER_ANTHROPIC : String := "anthropic"
def PROVIDER_GEMINI : String := "gemini"
def PROVIDER_AUTO : String := "auto"
def PROVIDER_UNKNOWN : String := "unknown"

def DEFAULT_OPENAI_ENDPOINT : String := "https://api.openai.com"
def DEFAULT_ANTHROPIC_ENDPOINT : String := "https://api.anthropic.com"

def SECTION_GENERAL : String := "general"
def SECTION_QUERY : String := "query"
def SECTION_RESPONSE : String := "response"
def SECTION_OPENAI : String := "openai"
def SECTION_ANTHROPIC : String := "anthropic"
def SECTION_GEMINI : String := "gemini"

def DEFAULT_OPENAI_MODEL : String := "gpt-4o"
def DEFAULT_ANTHROPIC_MODEL : String := "claude-sonnet-4-5-20250929"

def DEFAULT_OPENAI_MAX_TOKENS : Int := 16384
def DEFAULT_ANTHROPIC_MAX_TOKENS : Int := 8192
def DEFAULT_MAX_TOKENS : Int := 4096
def DEFAULT_MAX_QUERY_LENGTH : Int := 4000

/-- `constants::DEFAULT_TEMPERATURE = 0.7`; sampling temperatures are carried
as exact rationals in this embedding (no claim depends on binary rounding);
the literal is written in normalized constructor form. -/
def DEFAULT_TEMPERATURE : ℚ := ⟨7, 10, by decide, by decide⟩

/-- Modelled from the spec: `constants::MAX_CONFIG_LINE_LENGTH` is referenced
by `ConfigManager::parseConfig` but its defining header is not among the
sources; the spec only states that lines longer than a fixed maximum are a
parse failure for the whole document.  A fixed positive bound is used. -/
def MAX_CONFIG_LINE_LENGTH : Nat := 2000

/-- Modelled from the spec: `constants::DEFAULT_GEMINI_MODEL` is referenced by
`ConfigManager::getProviderDefaultConfigValues` but its defining header is not
among the sources; the unit-test fixtures use `gemini-2.5-flash` as the Gemini
default model. -/
def DEFAULT_GEMINI_MODEL : String := "gemini-2.5-flash"

/-! ### config.hpp data model -/

inductive Provider where
  | OPENAI
  | ANTHROPIC
  | GEMINI
  | UNKNOWN
deriving DecidableEq, Repr

/-- `pg_ai::config::ProviderConfig`. -/
structure ProviderConfig where
  provider : Provider
  api_key : String
  default_model : String
  default_max_tokens : Int
  default_temperature : ℚ
  api_endpoint : String
deriving DecidableEq, Repr

/-- The `ProviderConfig` default constructor. -/
def ProviderConfig.init : ProviderConfig :=
  { provider := Provider.UNKNOWN
    api_key := ""
    default_model := ""
    default_max_tokens := 4096
    default_temperature := DEFAULT_TEMPERATURE
    api_endpoint := "" }

/-- The `ProviderConfig(provider, default_model, default_max_tokens,
default_temperature = 0.7)` value constructor (config.hpp); `api_key` and
`api_endpoint` are default-initialized to empty. -/
def ProviderConfig.mk4 (provider : Provider) (default_model : String)
    (default_max_tokens : Int) (default_temperature : ℚ := DEFAULT_TEMPERATURE) : ProviderConfig :=
  { provider, api_key := "", default_model, default_max_tokens,
    default_temperature, api_endpoint := "" }

/-- `pg_ai::config::Configuration`. -/
structure Configuration where
  default_provider : ProviderConfig
  providers : List ProviderConfig
  log_level : String
  enable_logging : Bool
  request_timeout_ms : Int
  max_retries : Int
  enforce_limit : Bool
  default_limit : Int
  max_query_length : Int
  show_explanation : Bool
  show_warnings : Bool
  show_suggested_visualization : Bool
  use_formatted_response : Bool
deriving DecidableEq, Repr

/-- The `Configuration::Configuration()` default constructor (config.cpp):
defaults for every setting, plus a default OpenAI `ProviderConfig` stored both
as the default provider and as the single element of the provider list. -/
def Configuration.init : Configuration :=
  let dp : ProviderConfig :=
    { provider := Provider.OPENAI
      api_key := ""
      default_model := DEFAULT_OPENAI_MODEL
      default_max_tokens := DEFAULT_MAX_TOKENS
      default_temperature := DEFAULT_TEMPERATURE
      api_endpoint := "" }
  { default_provider := dp
    providers := [dp]
    log_level := "INFO"
    enable_logging := false
    request_timeout_ms := 30000
    max_retries := 3
    enforce_limit := true
    default_limit := 1000
    max_query_length := DEFAULT_MAX_QUERY_LENGTH
    show_explanation := true
    show_warnings := true
    show_suggested_visualization := false
    use_formatted_response := false }

/-- `ConfigManager::getProviderDefaultConfigValues`. -/
def getProviderDefaultConfigValues (provider : Provider) : ProviderConfig :=
  match provider with
  | Provider.OPENAI =>
    ProviderConfig.mk4 provider DEFAULT_OPENAI_MODEL DEFAULT_OPENAI_MAX_TOKENS
  | Provider.ANTHROPIC =>
    ProviderConfig.mk4 provider DEFAULT_ANTHROPIC_MODEL DEFAULT_ANTHROPIC_MAX_TOKENS
  | Provider.GEMINI =>
    ProviderConfig.mk4 provider DEFAULT_GEMINI_MODEL DEFAULT_MAX_TOKENS DEFAULT_TEMPERATURE
  | Provider.UNKNOWN => ProviderConfig.init

/-- `ConfigManager::providerToString`. -/
def providerToString (provider : Provider) : String :=
  match provider with
  | Provider.OPENAI => PROVIDER_OPENAI
  | Provider.ANTHROPIC => PROVIDER_ANTHROPIC
  | Provider.GEMINI => PROVIDER_GEMINI
  | Provider.UNKNOWN => PROVIDER_UNKNOWN

/-- `ConfigManager::stringToProvider`: lower-case the argument and compare with
the three known provider names. -/
def stringToProvider (provider_str : String) : Provider :=
  let lower := String.mk (provider_str.toList.map cToLower)
  if lower = PROVIDER_OPENAI then Provider.OPENAI
  else if lower = PROVIDER_ANTHROPIC then Provider.ANTHROPIC
  else if lower = PROVIDER_GEMINI then Provider.GEMINI
  else Provider.UNKNOWN

/-! ### core/ai_client_factory.cpp

The vendor SDK's `ai::openai::create_client` / `ai::anthropic::create_client`
are external collaborators; they are modelled as records of the arguments they
were constructed with, and their construction is modelled as non-throwing (the
`catch` branch of `createClient` is therefore unreachable in this model). -/

/-- An `ai::Client` as observable through its construction call. -/
structure AIClient where
  vendor : String
  api_key : String
  base_url : String
deriving DecidableEq, Repr

/-- `pg_ai::AIClientResult`. -/
structure AIClientResult where
  client : AIClient
  model_name : String
  success : Bool
  error_message : String
deriving DecidableEq, Repr

/-- `AIClientFactory::createClient` (core/ai_client_factory.cpp): dedicated
cases for OpenAI and Anthropic; every other provider falls into the `default`
switch case, which logs a warning and builds an OpenAI client with the default
endpoint and default model, ignoring `provider_config`. -/
def createClient (provider : Provider) (api_key : String)
    (provider_config : Option ProviderConfig) : AIClientResult :=
  match provider with
  | Provider.OPENAI =>
    let base_url :=
      match provider_config with
      | some pc => if !pc.api_endpoint.isEmpty then pc.api_endpoint else DEFAULT_OPENAI_ENDPOINT
      | none => DEFAULT_OPENAI_ENDPOINT
    let model_name :=
      match provider_config with
      | some pc => if !pc.default_model.isEmpty then pc.default_model else DEFAULT_OPENAI_MODEL
      | none => DEFAULT_OPENAI_MODEL
    { client := { vendor := "openai", api_key, base_url }
      model_name, success := true, error_message := "" }
  | Provider.ANTHROPIC =>
    let base_url :=
      match provider_config with
      | some pc => if !pc.api_endpoint.isEmpty then pc.api_endpoint else DEFAULT_ANTHROPIC_ENDPOINT
      | none => DEFAULT_ANTHROPIC_ENDPOINT
    let model_name :=
      match provider_config with
      | some pc => if !pc.default_model.isEmpty then pc.default_model else DEFAULT_ANTHROPIC_MODEL
      | none => DEFAULT_ANTHROPIC_MODEL
    { client := { vendor := "anthropic", api_key, base_url }
      model_name, success := true, error_message := "" }
  | _ =>
    { client := { vendor := "openai", api_key, base_url := DEFAULT_OPENAI_ENDPOINT }
      model_name := DEFAULT_OPENAI_MODEL, success := true, error_message := "" }

/-- `AIClientFactory::getDefaultModel`. -/
def getDefaultModel (provider : Provider) : String :=
  match provider with
  | Provider.OPENAI => DEFAULT_OPENAI_MODEL
  | Provider.ANTHROPIC => DEFAULT_ANTHROPIC_MODEL
  | _ => DEFAULT_OPENAI_MODEL

/-! ### query_generator.hpp: `QueryResult` -/

/-- `pg_ai::QueryResult`. -/
structure QueryResult where
  generated_query : String
  explanation : String
  warnings : List String
  row_limit_applied : Bool
  suggested_visualization : String
  success : Bool
  error_message : String
deriving DecidableEq, Repr

/-! ### core/response_formatter.cpp: JSON mode

An nlohmann JSON value is modelled by the key/value pairs assigned into it;
only string, bool and string-array values occur in `createJSONResponse`. -/

inductive JsonVal where
  | str (s : String)
  | bool (b : Bool)
  | arr (elems : List String)
deriving DecidableEq, Repr

/-- `ResponseFormatter::createJSONResponse` (core/response_formatter.cpp),
modelled as the set of key/value assignments performed on the JSON document,
in program order. -/
def createJSONResponse (result : QueryResult) (config : Configuration) :
    List (String × JsonVal) :=
  [("query", JsonVal.str result.generated_query),
   ("success", JsonVal.bool result.success)]
  ++ (if config.show_explanation && !result.explanation.isEmpty then
        [("explanation", JsonVal.str result.explanation)]
      else [])
  ++ (if config.show_warnings && !result.warnings.isEmpty then
        [("warnings", JsonVal.arr result.warnings)]
      else [])
  ++ (if config.show_suggested_visualization && !result.suggested_visualization.isEmpty then
        [("suggested_visualization", JsonVal.str result.suggested_visualization)]
      else [])
  ++ (if result.row_limit_applied then
        [("row_limit_applied", JsonVal.bool true)]
      else [])

/-! ### Session (GUC) credential overrides

`ConfigManager::applyGucOverrides` is declared and exercised by the sources
(pg_ai_query extension entry points and the ConfigManager unit tests) but its
definition is not among them. -/

/-- The `ConfigManager` static state relevant to session overrides: the cached
base configuration parsed from the file, and the effective configuration. -/
structure MgrState where
  base : Configuration
  config : Configuration
deriving DecidableEq

/-- Modelled from the spec: one provider's slot of the session-override
operation (`applyGucOverrides`, not under src/).  A `none` or empty credential
means "no override"; a non-empty credential replaces the provider's stored
credential, synthesizing a fresh `ProviderConfig` with the provider's built-in
defaults when the provider is absent. -/
def applyGucOverrideOne (cfg : Configuration) (provider : Provider)
    (key : Option String) : Configuration :=
  match key with
  | none => cfg
  | some k =>
    if k = "" then cfg
    else if cfg.providers.any (fun pc => pc.provider = provider) then
      { cfg with providers := (cfg.providers.map
          (fun pc => if pc.provider = provider then { pc with api_key := k } else pc)) }
    else
      { cfg with providers :=
          cfg.providers ++ [{ getProviderDefaultConfigValues provider with api_key := k }] }

/-- Modelled from the spec: `ConfigManager::applyGucOverrides` (implementation
not under src/).  Per the spec's session-override contract and the unit tests,
the effective configuration is re-derived from the cached base configuration
on every call, one optional credential per provider kind. -/
def applyGucOverrides (st : MgrState)
    (openai_key anthropic_key gemini_key : Option String) : MgrState :=
  { st with config :=
      (applyGucOverrideOne
        (applyGucOverrideOne
          (applyGucOverrideOne st.base Provider.OPENAI openai_key)
          Provider.ANTHROPIC anthropic_key)
        Provider.GEMINI gemini_key) }

/-! ### Provider selection

The request-level provider resolution lives in `QueryGenerator` whose
translation unit is not among the sources; only its data types, the factory it
calls and the `stringToProvider` mapping are. -/

/-- `pg_ai::ProviderSelectionResult` as described by the spec's data model. -/
structure ProviderSelectionResult where
  provider : Provider
  provider_config : Option ProviderConfig
  api_key : String
  success : Bool
  error_message : String
deriving DecidableEq

/-- Modelled from the spec: the fixed provider priority order used by
auto-selection; its first element is the primary provider kind. -/
def providerPriorityOrder : List Provider :=
  [Provider.OPENAI, Provider.ANTHROPIC, Provider.GEMINI]

/-- Credential stored for a provider kind in a configuration (empty when the
provider has no entry). -/
def storedKey (cfg : Configuration) (p : Provider) : String :=
  ((cfg.providers.find? (fun pc => pc.provider = p)).map (fun pc => pc.api_key)).getD ""

/-- Modelled from the spec: `ProviderSelector` (the provider-resolution step of
`QueryGenerator`, not under src/).  1. an explicitly named known provider is
selected, with the caller credential if non-empty, else the stored one;
2. otherwise (auto/unrecognized): a non-empty caller credential selects the
primary provider kind with that credential, else the priority order is scanned
for the first provider with a non-empty stored credential; 3. failure
otherwise. -/
def selectProvider (cfg : Configuration) (preference caller_key : String) :
    ProviderSelectionResult :=
  let explicitProv := stringToProvider preference
  if explicitProv = Provider.UNKNOWN then
    if caller_key ≠ "" then
      let primary := providerPriorityOrder.headD Provider.UNKNOWN
      { provider := primary
        provider_config := cfg.providers.find? (fun pc => pc.provider = primary)
        api_key := caller_key, success := true, error_message := "" }
    else
      match providerPriorityOrder.find? (fun p => storedKey cfg p ≠ "") with
      | some p =>
        { provider := p
          provider_config := cfg.providers.find? (fun pc => pc.provider = p)
          api_key := storedKey cfg p, success := true, error_message := "" }
      | none =>
        { provider := Provider.UNKNOWN, provider_config := none, api_key := ""
          success := false, error_message := "No API key available" }
  else
    let key := if caller_key ≠ "" then caller_key else storedKey cfg explicitProv
    { provider := explicitProv
      provider_config := cfg.providers.find? (fun pc => pc.provider = explicitProv)
      api_key := key, success := key ≠ "", error_message := "" }

/-! ### utils.cpp: `formatAPIError`

The JSON error body handed to nlohmann is an external artifact; a parsed JSON
value is modelled explicitly and the `nlohmann::json::parse(error_to_parse)`
call (on the substring of the raw error from its first `{`) is modelled by an
`Option Json` parameter, `none` meaning the parse threw. -/

inductive Json where
  | null
  | str (s : String)
  | num (q : ℚ)
  | bool (b : Bool)
  | arr (elems : List Json)
  | obj (fields : List (String × Json))

/-- `json::contains`: key lookup on objects, `false` on any other value. -/
def jContains (j : Json) (key : String) : Bool :=
  match j with
  | Json.obj fields => (fields.lookup key).isSome
  | _ => false

/-- `json::operator[]` on a key known to be present (the code only indexes
after `contains`); reads of absent keys or non-objects yield `null`. -/
def jGet (j : Json) (key : String) : Json :=
  match j with
  | Json.obj fields => (fields.lookup key).getD Json.null
  | _ => Json.null

/-- `json::get<std::string>`: `none` models the `type_error` exception thrown
on non-string values. -/
def jGetString : Json → Option String
  | Json.str s => some s
  | _ => none

/-- `std::string::find` for a substring: index of the first occurrence. -/
def idxOfSubList (l sub : List Char) : Option Nat :=
  match l with
  | [] => if sub.isEmpty then some 0 else none
  | c :: t => if sub.isPrefixOf (c :: t) then some 0 else (idxOfSubList t sub).map (· + 1)

/-- `true` when `sub` occurs somewhere in `l` (`std::string::find != npos`). -/
def hasSubstrList (l sub : List Char) : Bool :=
  match l with
  | [] => sub.isEmpty
  | c :: t => sub.isPrefixOf (c :: t) || hasSubstrList t sub

def strContains (s pattern : String) : Bool := hasSubstrList s.toList pattern.toList

/-- Trim the character set `" \t"` from both ends
(`erase(0, find_first_not_of(" \t"))` / `erase(find_last_not_of(" \t") + 1)`). -/
def trimBlank (l : List Char) : List Char :=
  ((l.dropWhile cIsBlank).reverse.dropWhile cIsBlank).reverse

/-- Trim the character set `" \t"` from the right end only. -/
def rtrimBlank (l : List Char) : List Char := (l.reverse.dropWhile cIsBlank).reverse

/-- The `try` block of `pg_ai::utils::formatAPIError` (utils.cpp).  Outer
`none` models a thrown `nlohmann::json::exception` (parse failure or a
non-string `type`/`message`); `some none` models falling out of the block
without returning; `some (some s)` models `return s`. -/
def fae_try (parsed : Option Json) : Option (Option String) :=
  match parsed with
  | none => none
  | some error_json =>
    if jContains error_json "error" then
      let error_obj := jGet error_json "error"
      let type? : Option String :=
        if jContains error_obj "type" then jGetString (jGet error_obj "type") else some ""
      let msg? : Option String :=
        if jContains error_obj "message" then jGetString (jGet error_obj "message") else some ""
      match type?, msg? with
      | some error_type, some error_msg =>
        if error_type = "not_found_error" then
          match idxOfSubList error_msg.toList "model:".toList with
          | some model_pos =>
            let model_name := String.mk (trimBlank (error_msg.toList.drop (model_pos + 7)))
            some (some ("Invalid model '" ++ model_name ++
              "'. Please check your configuration and use a valid model name. " ++
              "Common models: 'claude-sonnet-4-5-20250929' (Anthropic), 'gpt-4o' (OpenAI)."))
          | none =>
            some (some ("Model not found. Please check your model configuration and " ++
              "ensure you're using a valid model name."))
        else if error_type = "rate_limit_error" || strContains error_msg "rate limit" ||
            strContains error_msg "Rate limit" then
          some (some ("Rate limit exceeded. Please wait a moment and try again, " ++
            "or check your API plan's rate limits."))
        else if error_type = "authentication_error" || error_type = "invalid_api_key" ||
            strContains error_msg "API key" || strContains error_msg "api_key" ||
            strContains error_msg "Incorrect API key" then
          some (some ("Authentication failed. Please verify your API key in " ++
            "~/.pg_ai.config is correct and has not expired."))
        else if error_type = "insufficient_quota" || strContains error_msg "quota" ||
            strContains error_msg "billing" then
          some (some ("API quota exceeded or billing issue. Please check your " ++
            "account balance and billing settings with your AI provider."))
        else if error_type = "invalid_request_error" &&
            (strContains error_msg "context length" || strContains error_msg "maximum" ||
             strContains error_msg "too long") then
          some (some ("Request too large: the database schema and query exceed the " ++
            "model's context window. Try using a model with a larger " ++
            "context, or reduce the number of tables in your database."))
        else if error_type = "invalid_request_error" && error_msg ≠ "" then
          some (some ("Invalid request: " ++ error_msg))
        else if error_type = "server_error" || error_type = "overloaded_error" ||
            error_type = "service_unavailable" then
          some (some ("The AI provider is temporarily unavailable. Please try again " ++
            "in a few moments."))
        else if error_msg ≠ "" then some (some error_msg)
        else some none
      | _, _ => none
    else some none

/-- The code after the `try`/`catch` of `formatAPIError`: network-level
substring checks on the raw error, else the raw error verbatim. -/
def fae_fallback (raw_error : String) : String :=
  if strContains raw_error "Connection refused" || strContains raw_error "connect" then
    "Could not connect to the AI provider. Please check your network " ++
      "connection and any custom api_endpoint in your configuration."
  else if strContains raw_error "timed out" || strContains raw_error "Timeout" then
    "Request timed out. Try increasing request_timeout_ms in your " ++
      "configuration, or simplify your query."
  else raw_error

/-- `pg_ai::utils::formatAPIError` (utils.cpp): translate a provider error
body into a user-facing message.  `parsed` models the outcome of
`nlohmann::json::parse` on the raw error from its first `{`. -/
def formatAPIError (raw_error : String) (parsed : Option Json) : String :=
  match fae_try parsed with
  | some (some s) => s
  | _ => fae_fallback raw_error

/-! ### config.cpp: the INI-like parser -/

/-- `std::stoi` (base 10): skip whitespace, optional sign, at least one
decimal digit, trailing characters ignored; `none` models the
`invalid_argument` / `out_of_range` exceptions (no digits / outside the
32-bit `int` range). -/
def cppStoi (value : String) : Option Int :=
  let l := value.toList.dropWhile cIsSpace
  let signed : Bool × List Char :=
    match l with
    | '-' :: t => (true, t)
    | '+' :: t => (false, t)
    | t => (false, t)
  let digits := signed.2.takeWhile cIsDigit
  if digits.isEmpty then none
  else
    let magnitude : Int :=
      Int.ofNat (digits.foldl (fun a c => a * 10 + (c.toNat - 48)) 0)
    let val : Int := if signed.1 then -magnitude else magnitude
    if val < -(2 ^ 31) || 2 ^ 31 - 1 < val then none else some val

/-- `std::stod`, restricted to the decimal grammar actually exercised by the
configuration (optional sign, digits with an optional fraction part, optional
well-formed decimal exponent); the value is carried exactly as a rational
instead of a rounded binary double, and the hex/inf/nan forms and the
double-range check are not modelled.  `none` models `invalid_argument` (no
digits). -/
def cppStod (value : String) : Option ℚ :=
  let l := value.toList.dropWhile cIsSpace
  let signed : Bool × List Char :=
    match l with
    | '-' :: t => (true, t)
    | '+' :: t => (false, t)
    | t => (false, t)
  let d1 := signed.2.takeWhile cIsDigit
  let t2 := signed.2.drop d1.length
  let fr : List Char × List Char :=
    match t2 with
    | '.' :: u => (u.takeWhile cIsDigit, u.drop (u.takeWhile cIsDigit).length)
    | _ => ([], t2)
  let d2 := fr.1
  if d1.isEmpty && d2.isEmpty then none
  else
    let mantNat : ℚ := ((d1 ++ d2).foldl (fun a c => a * 10 + (c.toNat - 48)) 0 : ℕ)
    let mant : ℚ := mantNat / (10 : ℚ) ^ d2.length
    let expo : Int :=
      match fr.2 with
      | e :: u =>
        if e = 'e' || e = 'E' then
          let esigned : Bool × List Char :=
            match u with
            | '-' :: v => (true, v)
            | '+' :: v => (false, v)
            | v => (false, v)
          let ed := esigned.2.takeWhile cIsDigit
          if ed.isEmpty then 0
          else
            let m : Int := Int.ofNat (ed.foldl (fun a c => a * 10 + (c.toNat - 48)) 0)
            if esigned.1 then -m else m
        else 0
      | [] => 0
    some ((if signed.1 then -mant else mant) * (10 : ℚ) ^ expo)

/-- `ConfigManager::parseBooleanValue`: case-insensitive member of
true/yes/1 or false/no/0, anything else logs a warning and yields `false`. -/
def parseBooleanValue (value : String) : Bool :=
  let lower := String.mk (value.toList.map cToLower)
  if lower = "true" || lower = "yes" || lower = "1" then true
  else if lower = "false" || lower = "no" || lower = "0" then false
  else false

/-- `ConfigManager::isValidSection`. -/
def isValidSection (sec : String) : Bool :=
  sec = SECTION_RESPONSE || sec = SECTION_QUERY || sec = SECTION_GENERAL ||
  sec = SECTION_GEMINI || sec = SECTION_OPENAI || sec = SECTION_ANTHROPIC

/-- The escape-tracking loop body of `ConfigManager::unescapeQuotes`; note
that the source leaves the `escaped` flag set across a non-quote,
non-backslash character. -/
def unescapeQuotesGo : Bool → List Char → List Char
  | _, [] => []
  | escaped, c :: rest =>
    if escaped && (c = '\'' || c = '"') then c :: unescapeQuotesGo false rest
    else if c = '\\' then unescapeQuotesGo true rest
    else c :: unescapeQuotesGo escaped rest

/-- `ConfigManager::unescapeQuotes`. -/
def unescapeQuotes (value : List Char) : List Char := unescapeQuotesGo false value

/-- The scanning loop of `ConfigManager::findClosingQuote`, relative index. -/
def findClosingQuoteGo (quote : Char) : Bool → List Char → Option Nat
  | _, [] => none
  | escaped, c :: rest =>
    if escaped then (findClosingQuoteGo quote false rest).map (· + 1)
    else if c = '\\' then (findClosingQuoteGo quote true rest).map (· + 1)
    else if c = quote then some 0
    else (findClosingQuoteGo quote false rest).map (· + 1)

/-- `ConfigManager::findClosingQuote`: index (in `value`, scanning from
position 1) of the first unescaped occurrence of `quote`; `none` is
`std::string::npos`. -/
def findClosingQuote (value : List Char) (quote : Char) : Option Nat :=
  (findClosingQuoteGo quote false (value.drop 1)).map (· + 1)

/-! `ConfigManager::isValidLine` matches the whole line against the
ECMAScript regex
`^\s*([a-zA-Z0-9_]+)\s*=\s*((?:"((?:\\.|[^"])*)")|(?:'((?:\\.|[^'])*)')|(?:([^\s'"]*)))\s*(\s*#.*)?$`
with the C locale (`\s` = C whitespace, `.` = any character but newline).
The functions below decide membership in that regex's language. -/

/-- The trailing `\s*(\s*#.*)?$` of the line regex. -/
def restMatch (l : List Char) : Bool :=
  match l.dropWhile cIsSpace with
  | [] => true
  | c :: t => c = '#' && t.all (fun x => !(x = '\n'))

/-- After an opening quote `q`: the regex fragment `((?:\\.|[^q])*)q` followed
by the trailing part, deciding all backtracking alternatives. -/
def qScan (q : Char) : List Char → Bool
  | [] => false
  | c :: rest =>
    if c = q then restMatch rest
    else if c = '\\' then
      (match rest with
       | [] => false
       | r :: rest2 => !(r = '\n') && qScan q rest2) || qScan q rest
    else qScan q rest

/-- The unquoted-value alternative `([^\s'"]*)` followed by the trailing part,
deciding all backtracking alternatives. -/
def unqMatch : List Char → Bool
  | [] => true
  | c :: rest =>
    restMatch (c :: rest) ||
      (!cIsSpace c && !(c = '\'') && !(c = '"') && unqMatch rest)

/-- `ConfigManager::isValidLine`. -/
def isValidLine (line : List Char) : Bool :=
  let r := line.dropWhile cIsSpace
  let key := r.takeWhile isWordChar
  let r2 := (r.dropWhile isWordChar).dropWhile cIsSpace
  !key.isEmpty &&
    match r2 with
    | '=' :: r3 =>
      let v := r3.dropWhile cIsSpace
      (match v with
       | '"' :: w => qScan '"' w
       | '\'' :: w => qScan '\'' w
       | _ => false) || unqMatch v
    | _ => false

/-- `ConfigManager::setProviderField` does not exist as such in the source:
this is the tail of `parseProviderSection` that assigns one key into a
`ProviderConfig`; `none` models a thrown `std::invalid_argument` from
`std::stoi`/`std::stod`. -/
def setProviderField (key value : String) (pc : ProviderConfig) : Option ProviderConfig :=
  if key = "api_key" then some { pc with api_key := value }
  else if key = "default_model" then some { pc with default_model := value }
  else if key = "max_tokens" then
    (cppStoi value).map (fun n => { pc with default_max_tokens := n })
  else if key = "temperature" then
    (cppStod value).map (fun q => { pc with default_temperature := q })
  else if key = "api_endpoint" then some { pc with api_endpoint := value }
  else some pc

/-- `ConfigManager::getProviderConfigMutable` combined with the in-place
mutation of `parseProviderSection`: update the first entry of the given
provider kind. -/
def replaceFirstPC (prov : Provider) (f : ProviderConfig → Option ProviderConfig) :
    List ProviderConfig → Option (List ProviderConfig)
  | [] => some []
  | pc :: rest =>
    if pc.provider = prov then (f pc).map (· :: rest)
    else (replaceFirstPC prov f rest).map (pc :: ·)

/-- `ConfigManager::parseProviderSection` acting on the provider list: no-op
for `UNKNOWN`; update the existing entry of the provider kind if present, else
append a fresh entry built from the kind's defaults and update that. -/
def parseProviderSectionList (key value : String) (prov : Provider)
    (pcs : List ProviderConfig) : Option (List ProviderConfig) :=
  if prov = Provider.UNKNOWN then some pcs
  else if pcs.any (fun pc => pc.provider = prov) then
    replaceFirstPC prov (setProviderField key value) pcs
  else
    (setProviderField key value (getProviderDefaultConfigValues prov)).map
      (fun pc => pcs ++ [pc])

/-- The recognized-section assignments of `parseConfig` for one key/value pair
(`[general]`, `[query]`, `[response]` settings, then unconditionally
`parseProviderSection` on the section name mapped through
`stringToProvider`). -/
def applyKey (key value : List Char) (sec : String) (cfg : Configuration) :
    Option Configuration :=
  let ks := String.mk key
  let vs := String.mk value
  let cfg₁? : Option Configuration :=
    if sec = SECTION_GENERAL then
      if ks = "log_level" then some { cfg with log_level := vs }
      else if ks = "enable_logging" then
        some { cfg with enable_logging := parseBooleanValue vs }
      else if ks = "request_timeout_ms" then
        (cppStoi vs).map (fun n => { cfg with request_timeout_ms := n })
      else if ks = "max_retries" then
        (cppStoi vs).map (fun n => { cfg with max_retries := n })
      else some cfg
    else if sec = SECTION_QUERY then
      if ks = "enforce_limit" then some { cfg with enforce_limit := parseBooleanValue vs }
      else if ks = "default_limit" then
        (cppStoi vs).map (fun n => { cfg with default_limit := n })
      else if ks = "max_query_length" then
        (cppStoi vs).map (fun n => if 0 < n then { cfg with max_query_length := n } else cfg)
      else some cfg
    else if sec = SECTION_RESPONSE then
      if ks = "show_explanation" then
        some { cfg with show_explanation := parseBooleanValue vs }
      else if ks = "show_warnings" then
        some { cfg with show_warnings := parseBooleanValue vs }
      else if ks = "show_suggested_visualization" then
        some { cfg with show_suggested_visualization := parseBooleanValue vs }
      else if ks = "use_formatted_response" then
        some { cfg with use_formatted_response := parseBooleanValue vs }
      else some cfg
    else some cfg
  cfg₁?.bind (fun cfg₁ =>
    (parseProviderSectionList ks vs (stringToProvider sec) cfg₁.providers).map
      (fun ps => { cfg₁ with providers := ps }))

/-- The quoted-value / inline-comment handling of `parseConfig` on the trimmed
value: a value opening with a quote is cut at its unescaped closing quote and
unescaped (`none` = no closing quote: the key is skipped with a warning); an
unquoted value is cut at `#` and right-trimmed. -/
def handleValue (v : List Char) : Option (List Char) :=
  if 2 ≤ v.length && (v.headD ' ' = '"' || v.headD ' ' = '\'') then
    let qt := v.headD ' '
    match findClosingQuote v qt with
    | some closing => some (unescapeQuotes ((v.drop 1).take (closing - 1)))
    | none => none
  else
    some (match v.findIdx? (fun c => c = '#') with
          | some p => rtrimBlank (v.take p)
          | none => v)

/-- The key/value tail of the `parseConfig` line loop (after the blank,
comment and section-header handling): regex validation (full-document failure
when it fails), split at the first `=`, trim both sides, quote/inline-comment
handling (a missing closing quote skips the key), then key assignment in the
current section when that section is present and recognized. -/
def processLineKV (line : List Char) (currentSection : String)
    (cfg : Configuration) : Option (String × Configuration) :=
  if !isValidLine line then none
  else
    match line.findIdx? (fun c => c = '=') with
    | none => some (currentSection, cfg)
    | some eq_pos =>
      match handleValue (trimBlank (line.drop (eq_pos + 1))) with
      | none => some (currentSection, cfg)
      | some value =>
        if currentSection = "" then some (currentSection, cfg)
        else if !isValidSection currentSection then some (currentSection, cfg)
        else
          (applyKey (trimBlank (line.take eq_pos)) value currentSection cfg).map
            (fun c => (currentSection, c))

/-- The `parseConfig` line loop body on the trimmed line: skip blank and `#`
lines, open a section on `[name]` (an unmatched `[` falls through to the
key/value grammar), else process as a key/value line. -/
def processLineTrimmed (line : List Char) (currentSection : String)
    (cfg : Configuration) : Option (String × Configuration) :=
  if line.isEmpty || line.headD ' ' = '#' then some (currentSection, cfg)
  else if line.headD ' ' = '[' then
    match line.findIdx? (fun c => c = ']') with
    | some p => some (String.mk ((line.drop 1).take (p - 1)), cfg)
    | none => processLineKV line currentSection cfg
  else processLineKV line currentSection cfg

/-- One iteration of the `parseConfig` line loop, acting on the raw line and
the (section, configuration) state; `none` is `return false` (whole-document
failure).  The raw line is length-checked, stripped of a trailing carriage
return and trimmed before processing. -/
def processLine (rawLine : List Char) (currentSection : String)
    (cfg : Configuration) : Option (String × Configuration) :=
  if MAX_CONFIG_LINE_LENGTH ≤ rawLine.length then none
  else
    processLineTrimmed
      (trimBlank (if rawLine.getLast? = some '\r' then rawLine.dropLast else rawLine))
      currentSection cfg

/-- The `parseConfig` line loop over all lines. -/
def parseConfigLines : List (List Char) → String → Configuration → Option Configuration
  | [], _, cfg => some cfg
  | l :: ls, sec, cfg =>
    (processLine l sec cfg).bind (fun sc => parseConfigLines ls sc.1 sc.2)

/-- `std::getline` over a `std::istringstream`: split on `\n`; a trailing
newline does not produce a final empty line. -/
def splitNl : List Char → List (List Char)
  | [] => [[]]
  | c :: t =>
    if c = '\n' then [] :: splitNl t
    else
      match splitNl t with
      | [] => [[c]]
      | l :: ls => (c :: l) :: ls

/-- The sequence of lines `parseConfig` reads from `content`. -/
def getLines (content : List Char) : List (List Char) :=
  match content with
  | [] => []
  | _ =>
    if content.getLast? = some '\n' then (splitNl content).dropLast
    else splitNl content

/-- `ConfigManager::parseConfig` (config.cpp): reset to the default-constructed
configuration, run the line loop, then set the default provider to the first
entry of the provider list; `none` models both `return false` and an exception
escaping the loop (`std::stoi`/`std::stod`). -/
def parseConfig (content : List Char) : Option Configuration :=
  (parseConfigLines (getLines content) "" Configuration.init).map
    (fun cfg =>
      if !cfg.providers.isEmpty then
        { cfg with default_provider := cfg.providers.headD ProviderConfig.init }
      else cfg)

/-- `ConfigManager::loadConfig(config_path)` (config.cpp).  Reading the file is
external; `readFileOracle` models `utils::read_file` (`none` = the file is
absent or unreadable).  `Except.error` models the thrown `std::runtime_error`;
`Except.ok` carries the function's boolean result. -/
def loadConfig (readFileOracle : String → Option String) (config_path : String) :
    Except String Bool :=
  match readFileOracle config_path with
  | none =>
    Except.error ("pg_ai_query configuration file not found at: " ++ config_path ++
      "\nCreate it with your API key. See: " ++
      "https://benodiwal.github.io/pg_ai_query/configuration.html")
  | some content =>
    match parseConfig content.toList with
    | some _ => Except.ok true
    | none => Except.ok false

/-! ### core/response_formatter.cpp: plain-text word wrapping -/

/-- The token extraction of `stream >> word`: maximal runs of
non-whitespace characters, in order. -/
def splitWordsGo : List Char → List Char → List (List Char)
  | [], acc => if acc.isEmpty then [] else [acc.reverse]
  | c :: t, acc =>
    if cIsSpace c then
      if acc.isEmpty then splitWordsGo t [] else acc.reverse :: splitWordsGo t []
    else splitWordsGo t (c :: acc)

/-- The whitespace-delimited words of a text. -/
def splitWords (l : List Char) : List (List Char) := splitWordsGo l []

/-- One iteration of the `while (stream >> word)` loop of
`format_multiline_comment`, acting on the `(result, current_line)` pair. -/
def fmcStep (pre : List Char) (max_width : Nat) (acc : List Char × List Char)
    (word : List Char) : List Char × List Char :=
  if max_width < acc.2.length + word.length + (if acc.2 ≠ pre then 1 else 0) then
    (acc.1 ++ acc.2 ++ ['\n'], pre ++ word)
  else
    (acc.1, acc.2 ++ (if acc.2 ≠ pre then ' ' :: word else word))

/-- `format_multiline_comment` (core/response_formatter.cpp): word-wrap `text`
to `max_width` columns, every line starting with the comment continuation
`pre` (the source's `prefix` parameter, default `"--   "`, width 70). -/
def format_multiline_comment (text pre : List Char) (max_width : Nat) : List Char :=
  if ((splitWords text).foldl (fmcStep pre max_width) ([], pre)).2 ≠ pre then
    ((splitWords text).foldl (fmcStep pre max_width) ([], pre)).1
      ++ ((splitWords text).foldl (fmcStep pre max_width) ([], pre)).2
  else ((splitWords text).foldl (fmcStep pre max_width) ([], pre)).1

/-- Words joined by single spaces; the shape of every line built by
`format_multiline_comment` after its prefix. -/
def spjoin : List (List Char) → List Char
  | [] => []
  | [w] => w
  | w :: ws => w ++ ' ' :: spjoin ws

/-- Render a list of committed (newline-terminated) wrapped lines, each being
the prefix followed by space-joined words. -/
def renderLines (pre : List Char) (gs : List (List (List Char))) : List Char :=
  (gs.map (fun g => pre ++ spjoin g ++ ['\n'])).flatten

/-- Render the pending `current_line`: the prefix followed by space-joined
words. -/
def renderCur (pre : List Char) (h : List (List Char)) : List Char :=
  pre ++ spjoin h

/-! ## Theorems -/

/-! ### Generic substring lemmas -/

theorem hasSubstrList_append_left (x y sub : List Char)
    (h : hasSubstrList y sub = true) : hasSubstrList (x ++ y) sub = true := by
  induction x with
  | nil => simpa using h
  | cons c t ih =>
    simp only [List.cons_append, hasSubstrList, Bool.or_eq_true]
    exact Or.inr ih

/-! ### C2: session override / reset round-trip -/

/-- C2: applying any credential overrides and then the all-null (reset)
overrides yields the cached base configuration exactly; overrides never
accumulate, because the effective configuration is re-derived from the cached
base on every call. -/
theorem applyGucOverrides_reset_roundtrip (st : MgrState)
    (o₁ a₁ g₁ o₂ a₂ g₂ : Option String) :
    applyGucOverrides (applyGucOverrides st o₁ a₁ g₁) o₂ a₂ g₂ =
        applyGucOverrides st o₂ a₂ g₂ ∧
      (applyGucOverrides (applyGucOverrides st o₁ a₁ g₁) none none none).config =
        st.base :=
  ⟨rfl, rfl⟩

/-! ### C3: auto-selection with an explicit credential -/

/-- C3: whenever the caller supplies a non-empty credential under the "auto"
preference, provider selection resolves to the primary (first-priority)
provider kind — OpenAI — carrying the caller's credential, for every base
configuration. -/
theorem selectProvider_auto_explicit_key (cfg : Configuration) (key : String)
    (hk : key ≠ "") :
    (selectProvider cfg "auto" key).provider = providerPriorityOrder.headD Provider.UNKNOWN ∧
      (selectProvider cfg "auto" key).provider = Provider.OPENAI ∧
      (selectProvider cfg "auto" key).api_key = key ∧
      (selectProvider cfg "auto" key).success = true := by
  have hauto : stringToProvider "auto" = Provider.UNKNOWN := by decide
  unfold selectProvider
  rw [hauto]
  simp [hk, providerPriorityOrder]

/-- C3 witness: a base configuration that only configures Gemini still
resolves "auto" plus an explicit credential to OpenAI with that credential. -/
theorem selectProvider_auto_explicit_key_witness :
    (selectProvider
        { Configuration.init with providers :=
            [{ provider := Provider.GEMINI, api_key := "stored-gemini-key"
               default_model := "gemini-2.5-flash", default_max_tokens := 4096
               default_temperature := DEFAULT_TEMPERATURE, api_endpoint := "" }] }
        "auto" "caller-key").provider = Provider.OPENAI ∧
      (selectProvider
        { Configuration.init with providers :=
            [{ provider := Provider.GEMINI, api_key := "stored-gemini-key"
               default_model := "gemini-2.5-flash", default_max_tokens := 4096
               default_temperature := DEFAULT_TEMPERATURE, api_endpoint := "" }] }
        "auto" "caller-key").api_key = "caller-key" :=
  let h := selectProvider_auto_explicit_key
    { Configuration.init with providers :=
        [{ provider := Provider.GEMINI, api_key := "stored-gemini-key"
           default_model := "gemini-2.5-flash", default_max_tokens := 4096
           default_temperature := DEFAULT_TEMPERATURE, api_endpoint := "" }] }
    "caller-key" (by decide)
  ⟨h.2.1, h.2.2.1⟩

/-! ### C10: factory default case -/

/-- C10: every provider kind without a dedicated factory case (Gemini and
Unknown) yields a successfully constructed OpenAI client on the default OpenAI
endpoint with the default OpenAI model, ignoring any supplied provider
configuration, and `getDefaultModel` likewise falls back to the default OpenAI
model. -/
theorem createClient_no_dedicated_case (p : Provider)
    (hp : p = Provider.GEMINI ∨ p = Provider.UNKNOWN) (key : String)
    (pc : Option ProviderConfig) :
    createClient p key pc =
        { client := { vendor := "openai", api_key := key, base_url := DEFAULT_OPENAI_ENDPOINT }
          model_name := DEFAULT_OPENAI_MODEL, success := true, error_message := "" } ∧
      getDefaultModel p = DEFAULT_OPENAI_MODEL := by
  rcases hp with h | h <;> subst h <;> exact ⟨rfl, rfl⟩

/-- C10 witness: the Gemini kind with a populated provider configuration
(custom endpoint and model) still yields the default OpenAI client. -/
theorem createClient_no_dedicated_case_witness :
    createClient Provider.GEMINI "test-key"
        (some { provider := Provider.GEMINI, api_key := "other"
                default_model := "gemini-2.5-flash", default_max_tokens := 8192
                default_temperature := DEFAULT_TEMPERATURE
                api_endpoint := "https://custom.example.com" }) =
        { client := { vendor := "openai", api_key := "test-key"
                      base_url := DEFAULT_OPENAI_ENDPOINT }
          model_name := DEFAULT_OPENAI_MODEL, success := true, error_message := "" } ∧
      getDefaultModel Provider.GEMINI = DEFAULT_OPENAI_MODEL :=
  createClient_no_dedicated_case Provider.GEMINI (Or.inl rfl) "test-key"
    (some { provider := Provider.GEMINI, api_key := "other"
            default_model := "gemini-2.5-flash", default_max_tokens := 8192
            default_temperature := DEFAULT_TEMPERATURE
            api_endpoint := "https://custom.example.com" })

/-! ### C5: JSON response key population -/

/-- C5: the JSON-mode response always carries `query` and `success` with the
result's values; `explanation`, `warnings` and `suggested_visualization` are
present exactly when the corresponding display flag is set and the field is
non-empty; `row_limit_applied` is present exactly when the flag is true. -/
theorem createJSONResponse_keys (result : QueryResult) (config : Configuration) :
    ((createJSONResponse result config).lookup "query"
        = some (JsonVal.str result.generated_query)) ∧
      ((createJSONResponse result config).lookup "success"
        = some (JsonVal.bool result.success)) ∧
      (((createJSONResponse result config).lookup "explanation").isSome
        = (config.show_explanation && !result.explanation.isEmpty)) ∧
      (((createJSONResponse result config).lookup "warnings").isSome
        = (config.show_warnings && !result.warnings.isEmpty)) ∧
      (((createJSONResponse result config).lookup "suggested_visualization").isSome
        = (config.show_suggested_visualization && !result.suggested_visualization.isEmpty)) ∧
      (((createJSONResponse result config).lookup "row_limit_applied").isSome
        = result.row_limit_applied) := by
  unfold createJSONResponse
  split_ifs <;> simp_all [List.lookup]

/-! ### C8: missing configuration file is fatal -/

/-- C8: whenever the configuration file cannot be read, `loadConfig` raises an
error (it does not return false) whose message carries setup guidance and the
documentation link. -/
theorem loadConfig_missing_file_raises (readFileOracle : String → Option String)
    (config_path : String) (h : readFileOracle config_path = none) :
    ∃ msg, loadConfig readFileOracle config_path = Except.error msg ∧
      strContains msg "Create it with your API key" = true ∧
      strContains msg "configuration.html" = true := by
  refine ⟨_, by unfold loadConfig; rw [h], ?_, ?_⟩ <;>
    · unfold strContains
      rw [show ("pg_ai_query configuration file not found at: " ++ config_path ++
          "\nCreate it with your API key. See: " ++
          "https://benodiwal.github.io/pg_ai_query/configuration.html").toList
          = ("pg_ai_query configuration file not found at: ".toList ++ config_path.toList) ++
            ("\nCreate it with your API key. See: " ++
              "https://benodiwal.github.io/pg_ai_query/configuration.html").toList by
        simp]
      exact hasSubstrList_append_left _ _ _ (by decide)

/-- C8 witness: a file system with no readable file at the default per-user
path makes `loadConfig` raise with guidance. -/
theorem loadConfig_missing_file_raises_witness :
    ∃ msg, loadConfig (fun _ => none) "/home/user/.pg_ai.config" = Except.error msg ∧
      strContains msg "Create it with your API key" = true ∧
      strContains msg "configuration.html" = true :=
  loadConfig_missing_file_raises (fun _ => none) "/home/user/.pg_ai.config" rfl

/-! ### C6: rate-limit error translation -/

/-- C6: for every provider name, HTTP status 429 and error body whose JSON
carries an error object of type `rate_limit_error` (message absent or any
string), the error translator produces the fixed rate-limit message — which
contains "rate limit" wording (case-folded) — and not the raw JSON body. -/
theorem formatAPIError_rate_limit (provider : String) (status_code : Int)
    (hst : status_code = 429) (raw : String) (fs efs : List (String × Json))
    (herr : fs.lookup "error" = some (Json.obj efs))
    (htype : efs.lookup "type" = some (Json.str "rate_limit_error"))
    (hmsg : efs.lookup "message" = none ∨ ∃ s, efs.lookup "message" = some (Json.str s))
    (hbrace : hasSubstrList raw.toList [Char.ofNat 123] = true) :
    formatAPIError raw (some (Json.obj fs)) =
        "Rate limit exceeded. Please wait a moment and try again, or check your API plan's rate limits." ∧
      strContains
        (String.mk ((formatAPIError raw (some (Json.obj fs))).toList.map cToLower))
        "rate limit" = true ∧
      formatAPIError raw (some (Json.obj fs)) ≠ raw := by
  have htry : fae_try (some (Json.obj fs)) =
      some (some ("Rate limit exceeded. Please wait a moment and try again, " ++
        "or check your API plan's rate limits.")) := by
    rcases hmsg with hm | ⟨s, hm⟩ <;>
      simp [fae_try, jContains, jGet, jGetString, herr, htype, hm]
  have hres : formatAPIError raw (some (Json.obj fs)) =
      "Rate limit exceeded. Please wait a moment and try again, or check your API plan's rate limits." := by
    unfold formatAPIError
    rw [htry]
    show ("Rate limit exceeded. Please wait a moment and try again, " ++
        "or check your API plan's rate limits.") = _
    decide
  refine ⟨hres, ?_, ?_⟩
  · rw [hres]; decide
  · rw [hres]
    intro hcontra
    rw [← hcontra] at hbrace
    revert hbrace
    decide

/-- C6 witness: the spec's scenario body at status 429 for the Anthropic
provider. -/
theorem formatAPIError_rate_limit_witness :
    formatAPIError
        "HTTP 429: \x7b\"error\":\x7b\"type\":\"rate_limit_error\",\"message\":\"too many requests\"\x7d\x7d"
        (some (Json.obj [("error", Json.obj
          [("type", Json.str "rate_limit_error"),
           ("message", Json.str "too many requests")])])) =
      "Rate limit exceeded. Please wait a moment and try again, or check your API plan's rate limits." :=
  (formatAPIError_rate_limit "anthropic" 429 rfl
    "HTTP 429: \x7b\"error\":\x7b\"type\":\"rate_limit_error\",\"message\":\"too many requests\"\x7d\x7d"
    [("error", Json.obj
      [("type", Json.str "rate_limit_error"),
       ("message", Json.str "too many requests")])]
    [("type", Json.str "rate_limit_error"),
     ("message", Json.str "too many requests")]
    rfl rfl (Or.inr ⟨"too many requests", rfl⟩) (by decide)).1

/-! ### C1: the read-only classifier -/

theorem dropWhileAppendAll {p : Char → Bool} (a b : List Char)
    (ha : a.all p = true) : (a ++ b).dropWhile p = b.dropWhile p := by
  induction a with
  | nil => rfl
  | cons c t ih =>
    simp only [List.all_cons, Bool.and_eq_true] at ha
    simp [List.dropWhile_cons, ha.1, ih ha.2]

theorem skipWs_cons_space {c : Char} (l : List Char) (hc : cIsSpace c = true) :
    skipWs (c :: l) = skipWs l := by
  simp [skipWs, List.dropWhile_cons, hc]

theorem skipWs_cons_nonspace {c : Char} (l : List Char) (hc : cIsSpace c = false) :
    skipWs (c :: l) = c :: l := by
  simp [skipWs, List.dropWhile_cons, hc]

theorem dropLineBody_append (b t : List Char)
    (hb : b.all (fun c => !(c = '\n')) = true) :
    dropLineBody (b ++ '\n' :: t) = '\n' :: t := by
  unfold dropLineBody
  rw [dropWhileAppendAll b _ hb]
  simp [List.dropWhile_cons]

theorem findStarSlashIdx_append (b t : List Char) (hb : noStarSlash b = true) :
    findStarSlashIdx (b ++ '*' :: '/' :: t) = some b.length := by
  induction b with
  | nil => rfl
  | cons x b' ih =>
    cases b' with
    | nil => simp [findStarSlashIdx]
    | cons y b'' =>
      have hxy : ¬(x = '*' ∧ y = '/') := by
        intro hc
        simp [noStarSlash, hc.1, hc.2] at hb
      have hb' : noStarSlash (y :: b'') = true := by
        simp only [noStarSlash, Bool.and_eq_true] at hb
        exact hb.2
      have := ih hb'
      simp only [List.cons_append] at this ⊢
      rw [findStarSlashIdx, if_neg (by simpa using hxy), this]
      rfl

theorem dropBlockBody_append (b t : List Char) (hb : noStarSlash b = true) :
    dropBlockBody (b ++ '*' :: '/' :: t) = t := by
  unfold dropBlockBody
  rw [findStarSlashIdx_append b t hb]
  show (b ++ '*' :: '/' :: t).drop (b.length + 2) = t
  simp [List.drop_append]

/-- Comment/whitespace junk rendered in front of any remainder is skipped. -/
theorem skipComments_renderJunk (js : List JunkItem) (rest : List Char)
    (hjs : junkOK js = true) :
    skipComments (skipWs (renderJunk js ++ rest)) = skipComments (skipWs rest) := by
  induction js with
  | nil => rfl
  | cons j js ih =>
    cases j with
    | ws c =>
      simp only [junkOK, Bool.and_eq_true] at hjs
      simp only [renderJunk, List.cons_append]
      rw [skipWs_cons_space _ hjs.1]
      exact ih hjs.2
    | line b =>
      simp only [junkOK, Bool.and_eq_true] at hjs
      simp only [renderJunk, List.cons_append, List.append_assoc]
      rw [skipWs_cons_nonspace _ (by decide)]
      have hstep : skipComments ('-' :: '-' :: (b ++ '\n' :: (renderJunk js ++ rest)))
          = skipComments (skipWs (dropLineBody (b ++ '\n' :: (renderJunk js ++ rest)))) := by
        conv_lhs => unfold skipComments
        simp
      rw [hstep, dropLineBody_append _ _ hjs.1,
        skipWs_cons_space _ (by decide)]
      exact ih hjs.2
    | block b =>
      simp only [junkOK, Bool.and_eq_true] at hjs
      simp only [renderJunk, List.cons_append, List.append_assoc]
      rw [skipWs_cons_nonspace _ (by decide)]
      have hstep : skipComments ('/' :: '*' :: (b ++ '*' :: '/' :: (renderJunk js ++ rest)))
          = skipComments (skipWs (dropBlockBody (b ++ '*' :: '/' :: (renderJunk js ++ rest)))) := by
        conv_lhs => unfold skipComments
        simp
      rw [hstep, dropBlockBody_append _ _ hjs.1]
      exact ih hjs.2

theorem wordChar_facts (c : Char) (h : isWordChar c = true) :
    cIsSpace c = false ∧ ¬(c = '-') ∧ ¬(c = '/') := by
  refine ⟨?_, ?_, ?_⟩
  · cases hcs : cIsSpace c with
    | false => rfl
    | true =>
      exfalso
      have h6 : c = ' ' ∨ c = '\t' ∨ c = '\n' ∨ c = Char.ofNat 11 ∨
          c = Char.ofNat 12 ∨ c = '\r' := by
        simpa [cIsSpace, or_assoc] using hcs
      rcases h6 with h' | h' | h' | h' | h' | h' <;> subst h' <;> revert h <;> decide
  · intro h'; subst h'; revert h; decide
  · intro h'; subst h'; revert h; decide

theorem takeWhileAppendWords (w rest : List Char) (hw : w.all isWordChar = true)
    (hrest : isWordChar (rest.headD ' ') = false) :
    (w ++ rest).takeWhile isWordChar = w := by
  induction w with
  | nil =>
    cases rest with
    | nil => rfl
    | cons c t =>
      simp only [List.headD_cons] at hrest
      simp [List.takeWhile_cons, hrest]
  | cons c t ih =>
    simp only [List.all_cons, Bool.and_eq_true] at hw
    simp [List.takeWhile_cons, hw.1, ih hw.2]

/-- C1: on any SQL text of the form junk-prefix (whitespace, `--` line
comments, terminated `/* */` block comments) followed by a first token (a
maximal run of word characters) and a non-token remainder, the read-only
classifier answers true exactly when the case-folded first token is
`select`. -/
theorem is_select_only_query_first_token (js : List JunkItem) (w rest : List Char)
    (hjs : junkOK js = true) (hw : w.all isWordChar = true) (hw0 : w ≠ [])
    (hrest : isWordChar (rest.headD ' ') = false) :
    is_select_only_query (renderJunk js ++ (w ++ rest)) =
      decide (w.map cToLower = "select".toList) := by
  obtain ⟨c, w', rfl⟩ : ∃ c w', w = c :: w' := by
    cases w with
    | nil => exact absurd rfl hw0
    | cons c w' => exact ⟨c, w', rfl⟩
  have hc : isWordChar c = true := by
    simp only [List.all_cons, Bool.and_eq_true] at hw
    exact hw.1
  have hfacts := wordChar_facts c hc
  have hsc : skipComments (c :: (w' ++ rest)) = c :: (w' ++ rest) := by
    cases hwr : w' ++ rest with
    | nil => unfold skipComments; rfl
    | cons d t =>
      have h1 : ¬((decide (c = '-') && decide (d = '-')) = true) := by
        simp only [Bool.and_eq_true, decide_eq_true_eq]
        intro hx
        exact hfacts.2.1 hx.1
      have h2 : ¬((decide (c = '/') && decide (d = '*')) = true) := by
        simp only [Bool.and_eq_true, decide_eq_true_eq]
        intro hx
        exact hfacts.2.2 hx.1
      conv_lhs => unfold skipComments
      rw [if_neg h1, if_neg h2]
  have hskip : skipComments (skipWs (renderJunk js ++ ((c :: w') ++ rest)))
      = c :: (w' ++ rest) := by
    rw [skipComments_renderJunk js _ hjs, List.cons_append,
      skipWs_cons_nonspace _ hfacts.1, hsc]
  have htake : (c :: (w' ++ rest)).takeWhile (fun x => isWordChar x) = c :: w' := by
    have := takeWhileAppendWords (c :: w') rest hw hrest
    simpa using this
  unfold is_select_only_query
  simp only [hskip, htake]
  simp

/-- C1 witness: a mixed-case `SeLeCt` behind whitespace and both comment
styles classifies as read-only, and a leading `INSERT` does not. -/
theorem is_select_only_query_first_token_witness :
    is_select_only_query
        (renderJunk [JunkItem.ws ' ', JunkItem.line ['c'], JunkItem.block ['b'],
          JunkItem.ws '\n'] ++ ("SeLeCt".toList ++ " * from t".toList)) = true ∧
      is_select_only_query
        (renderJunk [] ++ ("INSERT".toList ++ " into t".toList)) = false := by
  constructor
  · rw [is_select_only_query_first_token
      [JunkItem.ws ' ', JunkItem.line ['c'], JunkItem.block ['b'], JunkItem.ws '\n']
      "SeLeCt".toList " * from t".toList (by decide) (by decide) (by decide) (by decide)]
    decide
  · rw [is_select_only_query_first_token [] "INSERT".toList " into t".toList
      (by decide) (by decide) (by decide) (by decide)]
    decide

/-! ### C4: provider-list invariants of the parser -/

theorem setProviderField_provider (key value : String) (pc pc' : ProviderConfig)
    (h : setProviderField key value pc = some pc') : pc'.provider = pc.provider := by
  unfold setProviderField at h
  split_ifs at h <;>
    simp only [Option.some.injEq, Option.map_eq_some'] at h
  any_goals (subst h; rfl)
  all_goals (obtain ⟨n, _, h⟩ := h; subst h; rfl)

theorem getProviderDefaultConfigValues_provider (prov : Provider) :
    (getProviderDefaultConfigValues prov).provider = prov := by
  cases prov <;> rfl

theorem replaceFirstPC_providers (prov : Provider)
    (f : ProviderConfig → Option ProviderConfig)
    (hf : ∀ pc pc', f pc = some pc' → pc'.provider = pc.provider)
    (pcs pcs' : List ProviderConfig) (h : replaceFirstPC prov f pcs = some pcs') :
    pcs'.map (fun pc => pc.provider) = pcs.map (fun pc => pc.provider) := by
  induction pcs generalizing pcs' with
  | nil =>
    unfold replaceFirstPC at h
    simp only [Option.some.injEq] at h
    subst h
    rfl
  | cons pc rest ih =>
    unfold replaceFirstPC at h
    split_ifs at h with hp
    · simp only [Option.map_eq_some'] at h
      obtain ⟨pc', hfpc, rfl⟩ := h
      simp [hf pc pc' hfpc]
    · simp only [Option.map_eq_some'] at h
      obtain ⟨rest', hrest, rfl⟩ := h
      simp [ih rest' hrest]

theorem parseProviderSectionList_inv (key value : String) (prov : Provider)
    (pcs pcs' : List ProviderConfig)
    (h : parseProviderSectionList key value prov pcs = some pcs')
    (h1 : pcs ≠ []) (h2 : (pcs.headD ProviderConfig.init).provider = Provider.OPENAI)
    (h3 : (pcs.map (fun pc => pc.provider)).Nodup) :
    pcs' ≠ [] ∧ (pcs'.headD ProviderConfig.init).provider = Provider.OPENAI ∧
      (pcs'.map (fun pc => pc.provider)).Nodup := by
  unfold parseProviderSectionList at h
  split_ifs at h with hu hex
  · simp only [Option.some.injEq] at h
    subst h
    exact ⟨h1, h2, h3⟩
  · have hmap := replaceFirstPC_providers prov (setProviderField key value)
      (setProviderField_provider key value) pcs pcs' h
    obtain ⟨p, rest, rfl⟩ : ∃ p rest, pcs = p :: rest := by
      cases pcs with
      | nil => exact absurd rfl h1
      | cons p rest => exact ⟨p, rest, rfl⟩
    cases pcs' with
    | nil => simp at hmap
    | cons q rest' =>
      simp only [List.map_cons, List.cons.injEq] at hmap
      refine ⟨by simp, ?_, ?_⟩
      · simpa [hmap.1] using h2
      · rw [List.map_cons, hmap.1, hmap.2]
        exact h3
  · simp only [Option.map_eq_some'] at h
    obtain ⟨pc', hset, rfl⟩ := h
    have hprovider : pc'.provider = prov := by
      rw [setProviderField_provider key value _ _ hset]
      exact getProviderDefaultConfigValues_provider prov
    have hnotin : prov ∉ pcs.map (fun pc => pc.provider) := by
      intro hmem
      apply hex
      simp only [List.mem_map] at hmem
      obtain ⟨pc, hpc, hpceq⟩ := hmem
      simp only [List.any_eq_true, decide_eq_true_eq]
      exact ⟨pc, hpc, hpceq⟩
    obtain ⟨p, rest, rfl⟩ : ∃ p rest, pcs = p :: rest := by
      cases pcs with
      | nil => exact absurd rfl h1
      | cons p rest => exact ⟨p, rest, rfl⟩
    refine ⟨by simp, by simpa using h2, ?_⟩
    have hmapeq : (p :: rest ++ [pc']).map (fun pc => pc.provider)
        = (p :: rest).map (fun pc => pc.provider) ++ [prov] := by
      simp [hprovider]
    rw [hmapeq, List.nodup_append]
    refine ⟨h3, List.nodup_singleton prov, ?_⟩
    intro a ha hb
    rw [List.mem_singleton] at hb
    subst hb
    exact hnotin ha

theorem applyKey_providers_inv (key value : List Char) (sec : String)
    (cfg cfg' : Configuration) (h : applyKey key value sec cfg = some cfg')
    (h1 : cfg.providers ≠ [])
    (h2 : (cfg.providers.headD ProviderConfig.init).provider = Provider.OPENAI)
    (h3 : (cfg.providers.map (fun pc => pc.provider)).Nodup) :
    cfg'.providers ≠ [] ∧
      (cfg'.providers.headD ProviderConfig.init).provider = Provider.OPENAI ∧
      (cfg'.providers.map (fun pc => pc.provider)).Nodup := by
  unfold applyKey at h
  rw [Option.bind_eq_some] at h
  obtain ⟨cfg₁, hcfg₁, h2'⟩ := h
  have hsame : cfg₁.providers = cfg.providers := by
    split_ifs at hcfg₁ <;>
      simp only [Option.some.injEq, Option.map_eq_some'] at hcfg₁
    any_goals (subst hcfg₁; rfl)
    all_goals
      (obtain ⟨n, _, hcfg₁⟩ := hcfg₁;
       first
         | (subst hcfg₁; rfl)
         | (subst hcfg₁; split_ifs <;> rfl))
  simp only [Option.map_eq_some'] at h2'
  obtain ⟨ps, hps, rfl⟩ := h2'
  rw [hsame] at hps
  exact parseProviderSectionList_inv _ _ _ _ _ hps h1 h2 h3

theorem processLineKV_providers_inv (line : List Char) (sec : String)
    (cfg : Configuration) (sec' : String) (cfg' : Configuration)
    (h : processLineKV line sec cfg = some (sec', cfg'))
    (h1 : cfg.providers ≠ [])
    (h2 : (cfg.providers.headD ProviderConfig.init).provider = Provider.OPENAI)
    (h3 : (cfg.providers.map (fun pc => pc.provider)).Nodup) :
    cfg'.providers ≠ [] ∧
      (cfg'.providers.headD ProviderConfig.init).provider = Provider.OPENAI ∧
      (cfg'.providers.map (fun pc => pc.provider)).Nodup := by
  unfold processLineKV at h
  repeat' split at h
  all_goals
    first
      | exact Option.noConfusion h
      | (simp only [Option.some.injEq, Prod.mk.injEq] at h
         rw [← h.2]
         exact ⟨h1, h2, h3⟩)
      | (simp only [Option.map_eq_some'] at h
         obtain ⟨cfg'', happ, hpair⟩ := h
         simp only [Prod.mk.injEq] at hpair
         rw [← hpair.2]
         exact applyKey_providers_inv _ _ _ _ _ happ h1 h2 h3)

theorem processLine_providers_inv (line : List Char) (sec : String)
    (cfg : Configuration) (sec' : String) (cfg' : Configuration)
    (h : processLine line sec cfg = some (sec', cfg'))
    (h1 : cfg.providers ≠ [])
    (h2 : (cfg.providers.headD ProviderConfig.init).provider = Provider.OPENAI)
    (h3 : (cfg.providers.map (fun pc => pc.provider)).Nodup) :
    cfg'.providers ≠ [] ∧
      (cfg'.providers.headD ProviderConfig.init).provider = Provider.OPENAI ∧
      (cfg'.providers.map (fun pc => pc.provider)).Nodup := by
  unfold processLine processLineTrimmed at h
  repeat' split at h
  all_goals
    first
      | exact Option.noConfusion h
      | (simp only [Option.some.injEq, Prod.mk.injEq] at h
         rw [← h.2]
         exact ⟨h1, h2, h3⟩)
      | exact processLineKV_providers_inv _ _ _ _ _ h h1 h2 h3

theorem parseConfigLines_providers_inv (ls : List (List Char)) (sec : String)
    (cfg cfg' : Configuration) (h : parseConfigLines ls sec cfg = some cfg')
    (h1 : cfg.providers ≠ [])
    (h2 : (cfg.providers.headD ProviderConfig.init).provider = Provider.OPENAI)
    (h3 : (cfg.providers.map (fun pc => pc.provider)).Nodup) :
    cfg'.providers ≠ [] ∧
      (cfg'.providers.headD ProviderConfig.init).provider = Provider.OPENAI ∧
      (cfg'.providers.map (fun pc => pc.provider)).Nodup := by
  induction ls generalizing sec cfg with
  | nil =>
    unfold parseConfigLines at h
    simp only [Option.some.injEq] at h
    subst h
    exact ⟨h1, h2, h3⟩
  | cons l ls ih =>
    unfold parseConfigLines at h
    rw [Option.bind_eq_some] at h
    obtain ⟨⟨secm, cfgm⟩, hline, hrest⟩ := h
    have hmid := processLine_providers_inv l sec cfg secm cfgm hline h1 h2 h3
    exact ih secm cfgm hrest hmid.1 hmid.2.1 hmid.2.2

/-- C4 (amended): after every successful parse, the provider list is
non-empty, holds at most one entry per provider kind, begins with the OpenAI
entry installed by the default constructor, and the default provider equals
that first entry. -/
theorem parseConfig_provider_invariants (content : List Char) (cfg : Configuration)
    (h : parseConfig content = some cfg) :
    cfg.providers ≠ [] ∧
      cfg.providers.headD ProviderConfig.init = cfg.default_provider ∧
      cfg.default_provider.provider = Provider.OPENAI ∧
      (cfg.providers.map (fun pc => pc.provider)).Nodup := by
  unfold parseConfig at h
  simp only [Option.map_eq_some'] at h
  obtain ⟨c, hc, rfl⟩ := h
  have hinv := parseConfigLines_providers_inv (getLines content) "" Configuration.init c hc
    (by decide) (by decide) (by decide)
  have hne : (!c.providers.isEmpty) = true := by
    cases hcp : c.providers with
    | nil => exact absurd hcp hinv.1
    | cons p rest => simp [List.isEmpty]
  rw [if_pos hne]
  refine ⟨hinv.1, rfl, ?_, hinv.2.2⟩
  exact hinv.2.1

/-- C4 witness: a one-provider document satisfies the invariants. -/
theorem parseConfig_provider_invariants_witness :
    ((parseConfig "[openai]\napi_key = k".toList).getD Configuration.init).providers ≠ [] ∧
      ((parseConfig "[openai]\napi_key = k".toList).getD Configuration.init).providers.headD
          ProviderConfig.init
        = ((parseConfig "[openai]\napi_key = k".toList).getD Configuration.init).default_provider ∧
      ((parseConfig "[openai]\napi_key = k".toList).getD
          Configuration.init).default_provider.provider = Provider.OPENAI ∧
      (((parseConfig "[openai]\napi_key = k".toList).getD Configuration.init).providers.map
        (fun pc => pc.provider)).Nodup :=
  parseConfig_provider_invariants "[openai]\napi_key = k".toList
    ((parseConfig "[openai]\napi_key = k".toList).getD Configuration.init) (by decide)

/-- C4 counterexample: a document whose only declared provider section is
`[anthropic]` still parses to a provider list beginning with an OpenAI entry,
so the list order is not the order in which provider sections appear in the
source, and the default provider is not the declared one. -/
theorem parseConfig_order_of_appearance_counterexample :
    (parseConfig "[anthropic]\napi_key = k".toList).map
        (fun cfg => cfg.providers.map (fun pc => pc.provider)) =
      some [Provider.OPENAI, Provider.ANTHROPIC] ∧
    (parseConfig "[anthropic]\napi_key = k".toList).map
        (fun cfg => cfg.default_provider.provider) = some Provider.OPENAI := by
  constructor <;> decide

/-! ### C7: unterminated quoted values -/

theorem splitNl_append_newline (a b : List Char)
    (ha : a.all (fun c => !(c = '\n')) = true) :
    splitNl (a ++ '\n' :: b) = a :: splitNl b := by
  induction a with
  | nil =>
    conv_lhs => unfold splitNl
    simp
  | cons c t ih =>
    simp only [List.all_cons, Bool.and_eq_true, Bool.not_eq_true',
      decide_eq_false_iff_not] at ha
    simp only [List.cons_append]
    conv_lhs => unfold splitNl
    rw [if_neg ha.1, ih (by simpa [List.all_eq_true] using ha.2)]

theorem splitNl_no_newline (a : List Char)
    (ha : a.all (fun c => !(c = '\n')) = true) :
    splitNl a = [a] := by
  induction a with
  | nil => rfl
  | cons c t ih =>
    simp only [List.all_cons, Bool.and_eq_true, Bool.not_eq_true',
      decide_eq_false_iff_not] at ha
    conv_lhs => unfold splitNl
    rw [if_neg ha.1, ih (by simpa [List.all_eq_true] using ha.2)]

theorem trimBlank_eq_self (l : List Char)
    (hh : ∀ c ∈ l.head?, cIsBlank c = false)
    (hl : ∀ c ∈ l.getLast?, cIsBlank c = false) :
    trimBlank l = l := by
  unfold trimBlank
  cases l with
  | nil => rfl
  | cons c t =>
    rw [List.dropWhile_cons, if_neg (by simp [hh c])]
    cases hrev : (c :: t).reverse with
    | nil => simp at hrev
    | cons d rs =>
      have hd : cIsBlank d = false := by
        apply hl
        rw [← List.head?_reverse, hrev]
        rfl
      rw [List.dropWhile_cons, if_neg (by simp [hd]), ← hrev,
        List.reverse_reverse]

theorem findIdx?_go_append (p : Char → Bool) (a b : List Char) :
    ∀ s i, List.findIdx? p a s = some i → List.findIdx? p (a ++ b) s = some i := by
  induction a with
  | nil => intro s i h; simp [List.findIdx?] at h
  | cons c t ih =>
    intro s i h
    simp only [List.cons_append, List.findIdx?_cons] at h ⊢
    split_ifs at h ⊢
    · exact h
    · exact ih _ i h

theorem findIdx?_append_left (p : Char → Bool) (a b : List Char) (i : Nat)
    (h : a.findIdx? p = some i) : (a ++ b).findIdx? p = some i :=
  findIdx?_go_append p a b 0 i h

theorem qScan_escaped_close (body : List Char)
    (hb : body.all (fun c => !(c = '"') && !(c = '\\')) = true) :
    qScan '"' (body ++ ['\\', '"']) = true := by
  induction body with
  | nil => decide
  | cons c t ih =>
    simp only [List.all_cons, Bool.and_eq_true, Bool.not_eq_true',
      decide_eq_false_iff_not] at hb
    simp only [List.cons_append]
    unfold qScan
    rw [if_neg hb.1.1, if_neg hb.1.2]
    exact ih (by simpa [List.all_eq_true] using hb.2)

theorem qScan_no_quote (body : List Char)
    (hb : body.all (fun c => !(c = '"') && !(c = '\\')) = true) :
    qScan '"' body = false := by
  induction body with
  | nil => rfl
  | cons c t ih =>
    simp only [List.all_cons, Bool.and_eq_true, Bool.not_eq_true',
      decide_eq_false_iff_not] at hb
    unfold qScan
    rw [if_neg hb.1.1, if_neg hb.1.2]
    exact ih (by simpa [List.all_eq_true] using hb.2)

theorem findClosingQuoteGo_escaped (body : List Char)
    (hb : body.all (fun c => !(c = '"') && !(c = '\\')) = true) :
    findClosingQuoteGo '"' false (body ++ ['\\', '"']) = none := by
  induction body with
  | nil => decide
  | cons c t ih =>
    simp only [List.all_cons, Bool.and_eq_true, Bool.not_eq_true',
      decide_eq_false_iff_not] at hb
    simp only [List.cons_append]
    unfold findClosingQuoteGo
    rw [if_neg (by simp), if_neg hb.1.2, if_neg hb.1.1,
      ih (by simpa [List.all_eq_true] using hb.2)]
    rfl

/-- C7 counterexample: a document whose quoted value plainly lacks a closing
quote fails line validation, making the WHOLE document parse fail — the key is
not merely skipped. -/
theorem unterminated_quote_document_failure_counterexample :
    parseConfig "[openai]\napi_key = \"abc".toList = none := by decide

theorem dropWhileAppendHead {p : Char → Bool} (a b : List Char) (ha : a ≠ [])
    (h : p (a.headD ' ') = false) : (a ++ b).dropWhile p = a ++ b := by
  cases a with
  | nil => exact absurd rfl ha
  | cons c t =>
    simp only [List.headD_cons] at h
    simp [List.dropWhile_cons, h]

theorem trimBlank_cons_blank (c : Char) (l : List Char) (hc : cIsBlank c = true) :
    trimBlank (c :: l) = trimBlank l := by
  unfold trimBlank
  rw [List.dropWhile_cons, if_pos hc]

theorem unqMatch_dquote (x : List Char) : unqMatch ('"' :: x) = false := rfl

/-- The key/`=`/value structure of an `api_key = "` line: validity reduces to
the quoted-value scan over the remainder. -/
theorem isValidLine_api_key (v' : List Char) :
    isValidLine ("api_key = \"".toList ++ v')
      = (qScan '"' v' || unqMatch ('"' :: v')) := rfl

theorem getLines_cons (c : Char) (t : List Char) :
    getLines (c :: t) =
      if (c :: t).getLast? = some '\n' then (splitNl (c :: t)).dropLast
      else splitNl (c :: t) := rfl

theorem getLines_two (a b : List Char)
    (ha : a.all (fun c => !(c = '\n')) = true)
    (hb : b.all (fun c => !(c = '\n')) = true)
    (hbne : b ≠ []) :
    getLines (a ++ '\n' :: b) = [a, b] := by
  have hlast : ('\n' :: b).getLast? = b.getLast? := by
    rcases b.eq_nil_or_concat with rfl | ⟨b', e, rfl⟩
    · exact absurd rfl hbne
    · rw [List.concat_eq_append,
        show '\n' :: (b' ++ [e]) = ('\n' :: b') ++ [e] from rfl,
        List.getLast?_concat, List.getLast?_concat]
  have hbnlast : b.getLast? ≠ some '\n' := by
    intro heq
    have hmem : '\n' ∈ b := by
      obtain ⟨hne, heqd⟩ := List.mem_getLast?_eq_getLast (by rw [heq]; rfl)
      rw [heqd]
      exact List.getLast_mem hne
    simp only [List.all_eq_true, Bool.not_eq_true', decide_eq_false_iff_not] at hb
    exact hb '\n' hmem rfl
  have hsplit : splitNl (a ++ '\n' :: b) = [a, b] := by
    rw [splitNl_append_newline a b ha, splitNl_no_newline b hb]
  cases a with
  | nil =>
    rw [List.nil_append, getLines_cons, hlast, if_neg hbnlast]
    simpa using hsplit
  | cons c t =>
    rw [List.cons_append, getLines_cons, ← List.cons_append]
    have hlast2 : ((c :: t) ++ '\n' :: b).getLast? = b.getLast? := by
      rw [List.getLast?_append, hlast]
      rcases hob : b.getLast? with _ | e
      · rcases b.eq_nil_or_concat with rfl | ⟨b', e, rfl⟩
        · exact absurd rfl hbne
        · rw [List.concat_eq_append, List.getLast?_concat] at hob
          cases hob
      · rfl
    rw [hlast2, if_neg hbnlast, hsplit]

/-- Part of C7 analysis: a value quoted as `"…\"`, whose only quote candidate
is escaped, passes line validation but has no unescaped closing quote, so the
key is skipped and the line leaves the state untouched. -/
theorem processLine_escaped_quote (sec : String) (cfg : Configuration)
    (body : List Char)
    (hq : body.all (fun c => !(c = '"') && !(c = '\\')) = true)
    (hlen : body.length ≤ 1900) :
    processLine ("api_key = \"".toList ++ (body ++ ['\\', '"'])) sec cfg
      = some (sec, cfg) := by
  have hlast2 : ("api_key = \"".toList ++ (body ++ ['\\', '"'])).getLast? = some '"' := by
    rw [List.getLast?_append, List.getLast?_append,
      show (['\\', '"'] : List Char) = ['\\'] ++ ['"'] from rfl, List.getLast?_concat]
    rfl
  have hlenfact : ¬(MAX_CONFIG_LINE_LENGTH ≤
      ("api_key = \"".toList ++ (body ++ ['\\', '"'])).length) := by
    simp only [List.length_append, MAX_CONFIG_LINE_LENGTH,
      show ("api_key = \"".toList).length = 11 from rfl,
      show (['\\', '"'] : List Char).length = 2 from rfl]
    omega
  have htrim : trimBlank ("api_key = \"".toList ++ (body ++ ['\\', '"']))
      = "api_key = \"".toList ++ (body ++ ['\\', '"']) := by
    refine trimBlank_eq_self _ ?_ ?_
    · intro c hc
      rw [show ("api_key = \"".toList ++ (body ++ ['\\', '"'])).head? = some 'a' from rfl]
        at hc
      simp only [Option.mem_def, Option.some.injEq] at hc
      subst hc
      decide
    · intro c hc
      rw [hlast2] at hc
      simp only [Option.mem_def, Option.some.injEq] at hc
      subst hc
      decide
  unfold processLine
  rw [if_neg hlenfact, if_neg (by rw [hlast2]; decide), htrim]
  unfold processLineTrimmed
  rw [if_neg (by
      rw [show (("api_key = \"".toList ++ (body ++ ['\\', '"'])).isEmpty
        || decide (("api_key = \"".toList ++ (body ++ ['\\', '"'])).headD ' ' = '#'))
        = false from rfl]
      decide),
    if_neg (by
      intro hcontra
      exact absurd (show ('a' : Char) = '[' from hcontra) (by decide))]
  unfold processLineKV
  simp only [isValidLine_api_key, qScan_escaped_close body hq, Bool.true_or,
    Bool.not_true]
  rw [if_neg (by decide)]
  have hfind : ("api_key = \"".toList ++ (body ++ ['\\', '"'])).findIdx?
      (fun c => c = '=') = some 8 :=
    findIdx?_append_left _ _ _ 8 (by decide)
  simp only [hfind]
  have hdrop : ("api_key = \"".toList ++ (body ++ ['\\', '"'])).drop (8 + 1)
      = ' ' :: '"' :: (body ++ ['\\', '"']) := by
    rw [List.drop_append_of_le_length (by decide)]
    rfl
  rw [hdrop, trimBlank_cons_blank _ _ (by decide)]
  have htrimv : trimBlank ('"' :: (body ++ ['\\', '"'])) = '"' :: (body ++ ['\\', '"']) := by
    refine trimBlank_eq_self _ ?_ ?_
    · intro c hc
      simp only [List.head?_cons, Option.mem_def, Option.some.injEq] at hc
      subst hc
      decide
    · intro c hc
      rw [show '"' :: (body ++ ['\\', '"']) = ('"' :: (body ++ ['\\'])) ++ ['"'] from by
          simp, List.getLast?_concat] at hc
      simp only [Option.mem_def, Option.some.injEq] at hc
      subst hc
      decide
  rw [htrimv]
  have hhv : handleValue ('"' :: (body ++ ['\\', '"'])) = none := by
    unfold handleValue
    rw [if_pos (by
      simp only [Bool.and_eq_true, Bool.or_eq_true, decide_eq_true_eq,
        List.length_cons, List.length_append]
      constructor
      · omega
      · left; rfl)]
    unfold findClosingQuote
    simp only [show ('"' :: (body ++ ['\\', '"'])).drop 1 = body ++ ['\\', '"'] from rfl,
      show ('"' :: (body ++ ['\\', '"'])).headD ' ' = '"' from rfl,
      findClosingQuoteGo_escaped body hq, Option.map_none']
  simp only [hhv]

/-- Part of C7 analysis: a plainly unterminated quoted value fails line
validation (no alternative of the value grammar accepts it), so the whole
document parse fails. -/
theorem processLine_unterminated (sec : String) (cfg : Configuration)
    (body : List Char)
    (hq : body.all (fun c => !(c = '"') && !(c = '\\')) = true)
    (hcrlast : ∀ c ∈ body.getLast?, cIsBlank c = false ∧ ¬(c = '\r'))
    (hlen : body.length ≤ 1900) :
    processLine ("api_key = \"".toList ++ body) sec cfg = none := by
  have hlastfacts : ∀ c ∈ ("api_key = \"".toList ++ body).getLast?,
      cIsBlank c = false ∧ ¬(c = '\r') := by
    intro c hc
    rw [List.getLast?_append] at hc
    rcases hob : body.getLast? with _ | e
    · rw [hob] at hc
      rw [show (Option.or none ("api_key = \"".toList.getLast?)) = some '"' from rfl] at hc
      simp only [Option.mem_def, Option.some.injEq] at hc
      subst hc
      exact ⟨by decide, by decide⟩
    · rw [hob] at hc
      rw [show (Option.or (some e) ("api_key = \"".toList.getLast?)) = some e from rfl] at hc
      simp only [Option.mem_def, Option.some.injEq] at hc
      subst hc
      exact hcrlast e (by rw [hob]; rfl)
  have hlenfact : ¬(MAX_CONFIG_LINE_LENGTH ≤ ("api_key = \"".toList ++ body).length) := by
    simp only [List.length_append, MAX_CONFIG_LINE_LENGTH,
      show ("api_key = \"".toList).length = 11 from rfl]
    omega
  have hlastne : ("api_key = \"".toList ++ body).getLast? ≠ some '\r' := by
    intro heq
    exact (hlastfacts '\r' (by rw [heq]; rfl)).2 rfl
  have htrim : trimBlank ("api_key = \"".toList ++ body)
      = "api_key = \"".toList ++ body := by
    refine trimBlank_eq_self _ ?_ ?_
    · intro c hc
      rw [show ("api_key = \"".toList ++ body).head? = some 'a' from rfl] at hc
      simp only [Option.mem_def, Option.some.injEq] at hc
      subst hc
      decide
    · intro c hc
      exact (hlastfacts c hc).1
  unfold processLine
  rw [if_neg hlenfact, if_neg hlastne, htrim]
  unfold processLineTrimmed
  rw [if_neg (by
      rw [show (("api_key = \"".toList ++ body).isEmpty
        || decide (("api_key = \"".toList ++ body).headD ' ' = '#')) = false from rfl]
      decide),
    if_neg (by
      intro hcontra
      exact absurd (show ('a' : Char) = '[' from hcontra) (by decide))]
  unfold processLineKV
  simp only [isValidLine_api_key, qScan_no_quote body hq, unqMatch_dquote,
    Bool.or_self, Bool.not_false]
  rw [if_pos trivial]

/-- C7 (amended): how `parseConfig` treats an unterminated quoted value depends
on why the closing quote is missing.  A value `"…\"` whose only quote candidate
is escaped still satisfies the line regex, but `findClosingQuote` reports no
unescaped closing quote, so exactly that key is skipped and the document parse
succeeds (first conjunct); a plainly unterminated value `"…` already fails the
line regex, which is a whole-document parse failure (second conjunct), contrary
to the claim's "for every … unterminated quote" wording. -/
theorem unterminated_quote_key_skip (body : List Char)
    (hq : body.all (fun c => !(c = '"') && !(c = '\\')) = true)
    (hnl : body.all (fun c => !(c = '\n')) = true)
    (hcrlast : ∀ c ∈ body.getLast?, cIsBlank c = false ∧ ¬(c = '\r'))
    (hlen : body.length ≤ 1900) :
    parseConfig ("[openai]".toList ++ '\n' ::
        ("api_key = \"".toList ++ (body ++ ['\\', '"'])))
      = some Configuration.init ∧
    parseConfig ("[openai]".toList ++ '\n' :: ("api_key = \"".toList ++ body))
      = none := by
  have hnlb : ("api_key = \"".toList ++ (body ++ ['\\', '"'])).all
      (fun c => !(c = '\n')) = true := by
    simp only [List.all_append, Bool.and_eq_true]
    exact ⟨by decide, hnl, by decide⟩
  have hnlb2 : ("api_key = \"".toList ++ body).all (fun c => !(c = '\n')) = true := by
    simp only [List.all_append, Bool.and_eq_true]
    exact ⟨by decide, hnl⟩
  have hne1 : ("api_key = \"".toList ++ (body ++ ['\\', '"'])) ≠ [] := by
    intro h
    rw [List.append_eq_nil] at h
    exact absurd h.1 (by decide)
  have hne2 : ("api_key = \"".toList ++ body) ≠ [] := by
    intro h
    rw [List.append_eq_nil] at h
    exact absurd h.1 (by decide)
  constructor
  · unfold parseConfig
    rw [getLines_two _ _ (by decide) hnlb hne1]
    simp only [parseConfigLines,
      show processLine "[openai]".toList "" Configuration.init
        = some ("openai", Configuration.init) from by decide,
      Option.some_bind]
    rw [processLine_escaped_quote "openai" Configuration.init body hq hlen]
    simp only [Option.some_bind, Option.map_some']
    decide
  · unfold parseConfig
    rw [getLines_two _ _ (by decide) hnlb2 hne2]
    simp only [parseConfigLines,
      show processLine "[openai]".toList "" Configuration.init
        = some ("openai", Configuration.init) from by decide,
      Option.some_bind]
    rw [processLine_unterminated "openai" Configuration.init body hq hcrlast hlen]
    rfl

/-- C7 witness: the amended theorem at the concrete value body `abc`. -/
theorem unterminated_quote_key_skip_witness :
    parseConfig ("[openai]".toList ++ '\n' ::
        ("api_key = \"".toList ++ ("abc".toList ++ ['\\', '"'])))
      = some Configuration.init ∧
    parseConfig ("[openai]".toList ++ '\n' :: ("api_key = \"".toList ++ "abc".toList))
      = none :=
  unterminated_quote_key_skip "abc".toList (by decide) (by decide)
    (by
      intro c hc
      have hc' : some 'c' = some c := hc
      cases hc'
      exact ⟨by decide, by decide⟩)
    (by decide)

/-! ### C9: word wrapping never splits a word -/

theorem all_mono {p q : Char → Bool} (h : ∀ c, p c = true → q c = true)
    (l : List Char) (hl : l.all p = true) : l.all q = true := by
  simp only [List.all_eq_true] at hl ⊢
  exact fun c hc => h c (hl c hc)

theorem append_ne_left (a b : List Char) (hb : b ≠ []) : a ++ b ≠ a := by
  intro h
  have hlen := congrArg List.length h
  simp only [List.length_append] at hlen
  have hb0 : b.length = 0 := by omega
  exact hb (List.length_eq_zero.mp hb0)

theorem splitWordsGo_sound (l : List Char) : ∀ (acc : List Char),
    acc.all (fun c => !(cIsSpace c)) = true →
    ∀ w ∈ splitWordsGo l acc, w ≠ [] ∧ w.all (fun c => !(cIsSpace c)) = true := by
  induction l with
  | nil =>
    intro acc hacc w hw
    by_cases hae : acc.isEmpty
    · simp [splitWordsGo, hae] at hw
    · simp only [splitWordsGo, hae, Bool.false_eq_true, if_false,
        List.mem_singleton] at hw
      subst hw
      refine ⟨?_, by simpa using hacc⟩
      intro hr
      exact hae (by simp [List.isEmpty_iff, List.reverse_eq_nil_iff.mp hr])
  | cons c t ih =>
    intro acc hacc w hw
    by_cases hsp : cIsSpace c
    · by_cases hae : acc.isEmpty
      · simp only [splitWordsGo, hsp, if_true, hae] at hw
        exact ih [] rfl w hw
      · simp only [splitWordsGo, hsp, if_true, hae, Bool.false_eq_true, if_false,
          List.mem_cons] at hw
        rcases hw with rfl | hw
        · refine ⟨?_, by simpa using hacc⟩
          intro hr
          exact hae (by simp [List.isEmpty_iff, List.reverse_eq_nil_iff.mp hr])
        · exact ih [] rfl w hw
    · simp only [splitWordsGo, hsp, Bool.false_eq_true, if_false] at hw
      refine ih (c :: acc) ?_ w hw
      simp only [List.all_cons, Bool.and_eq_true]
      exact ⟨by simp [hsp], hacc⟩

theorem splitWords_sound (l : List Char) :
    ∀ w ∈ splitWords l, w ≠ [] ∧ w.all (fun c => !(cIsSpace c)) = true :=
  splitWordsGo_sound l [] rfl

theorem splitWordsGo_word (w : List Char)
    (hw : w.all (fun c => !(cIsSpace c)) = true) (rest acc : List Char) :
    splitWordsGo (w ++ rest) acc = splitWordsGo rest (w.reverse ++ acc) := by
  induction w generalizing acc with
  | nil => simp
  | cons c t ih =>
    simp only [List.all_cons, Bool.and_eq_true, Bool.not_eq_true'] at hw
    simp only [List.cons_append, splitWordsGo, hw.1, Bool.false_eq_true, if_false]
    show splitWordsGo (t ++ rest) (c :: acc) = splitWordsGo rest ((c :: t).reverse ++ acc)
    rw [ih (by simpa using hw.2) (c :: acc)]
    simp [List.append_assoc]

theorem spjoin_cons_ne_nil (w : List Char) (g : List (List Char)) (hw : w ≠ []) :
    spjoin (w :: g) ≠ [] := by
  cases g with
  | nil => simpa [spjoin] using hw
  | cons v g' => simp [spjoin]

theorem spjoin_append_single (g : List (List Char)) (wd : List Char)
    (hg : g ≠ []) : spjoin (g ++ [wd]) = spjoin g ++ ' ' :: wd := by
  induction g with
  | nil => exact absurd rfl hg
  | cons w g' ih =>
    cases g' with
    | nil => simp [spjoin]
    | cons v g'' =>
      rw [show (w :: (v :: g'')) ++ [wd] = w :: ((v :: g'') ++ [wd]) from rfl]
      rw [show (v :: g'') ++ [wd] = v :: (g'' ++ [wd]) from rfl]
      rw [show spjoin (w :: v :: (g'' ++ [wd])) = w ++ ' ' :: spjoin (v :: (g'' ++ [wd]))
        from rfl]
      rw [show (v :: g'') ++ [wd] = v :: (g'' ++ [wd]) from rfl] at ih
      rw [ih (by simp), show spjoin (w :: v :: g'') = w ++ ' ' :: spjoin (v :: g'')
        from rfl]
      simp

theorem spjoin_all (p : Char → Bool) (hsp : p ' ' = true) :
    ∀ g : List (List Char), (∀ w ∈ g, w.all p = true) → (spjoin g).all p = true := by
  intro g
  induction g with
  | nil => intro _; rfl
  | cons w g' ih =>
    intro hg
    cases g' with
    | nil => simpa [spjoin] using hg w (by simp)
    | cons v g'' =>
      rw [show spjoin (w :: v :: g'') = w ++ ' ' :: spjoin (v :: g'') from rfl]
      simp only [List.all_append, List.all_cons, Bool.and_eq_true]
      exact ⟨hg w (by simp), hsp, by
        have := ih (fun x hx => hg x (by simp [hx]))
        simpa using this⟩

theorem splitWords_spjoin (g : List (List Char))
    (hg : ∀ w ∈ g, w ≠ [] ∧ w.all (fun c => !(cIsSpace c)) = true) :
    splitWords (spjoin g) = g := by
  induction g with
  | nil => rfl
  | cons w g' ih =>
    obtain ⟨hwne, hwall⟩ := hg w (by simp)
    cases g' with
    | nil =>
      show splitWordsGo (spjoin [w]) [] = [w]
      rw [show spjoin [w] = w from rfl, show w = w ++ [] from by simp,
        splitWordsGo_word w hwall [] []]
      simp only [splitWordsGo, List.append_nil]
      rw [if_neg (by simpa [List.isEmpty_iff, List.reverse_eq_nil_iff] using hwne)]
      simp
    | cons v g'' =>
      rw [show spjoin (w :: v :: g'') = w ++ ' ' :: spjoin (v :: g'') from rfl]
      show splitWordsGo (w ++ ' ' :: spjoin (v :: g'')) [] = w :: v :: g''
      rw [splitWordsGo_word w hwall _ []]
      simp only [splitWordsGo, show cIsSpace ' ' = true from rfl, if_true,
        List.append_nil]
      rw [if_neg (by simpa [List.isEmpty_iff, List.reverse_eq_nil_iff] using hwne)]
      rw [show splitWordsGo (spjoin (v :: g'')) [] = splitWords (spjoin (v :: g''))
        from rfl]
      rw [ih (fun x hx => hg x (by simp [hx]))]
      simp

theorem fmcStep_renderNil (pre : List Char) (mw : Nat)
    (gs : List (List (List Char))) (wd : List Char) :
    fmcStep pre mw (renderLines pre gs, renderCur pre []) wd
      = if mw < pre.length + wd.length then
          (renderLines pre (gs ++ [[]]), renderCur pre [wd])
        else (renderLines pre gs, renderCur pre [wd]) := by
  have hcur : renderCur pre [] = pre := by simp [renderCur, spjoin]
  have hcne : (if pre ≠ pre then 1 else 0) = 0 := if_neg (fun hh => hh rfl)
  have hcne2 : (if pre ≠ pre then ' ' :: wd else wd) = wd := if_neg (fun hh => hh rfl)
  unfold fmcStep
  dsimp only
  rw [hcur, hcne, hcne2, Nat.add_zero]
  split_ifs with hc
  · simp [renderLines, renderCur, spjoin]
  · simp [renderCur, spjoin]

theorem fmcStep_renderCons (pre : List Char) (mw : Nat)
    (gs : List (List (List Char))) (hw : List Char) (ht : List (List Char))
    (wd : List Char) (hne : hw ≠ []) :
    fmcStep pre mw (renderLines pre gs, renderCur pre (hw :: ht)) wd
      = if mw < (renderCur pre (hw :: ht)).length + wd.length + 1 then
          (renderLines pre (gs ++ [hw :: ht]), renderCur pre [wd])
        else (renderLines pre gs, renderCur pre ((hw :: ht) ++ [wd])) := by
  have hcurne : renderCur pre (hw :: ht) ≠ pre := by
    unfold renderCur
    exact append_ne_left pre _ (spjoin_cons_ne_nil hw ht hne)
  unfold fmcStep
  dsimp only
  rw [if_pos hcurne, if_pos hcurne]
  split_ifs with hc
  · simp [renderLines, renderCur, spjoin]
  · refine Prod.ext rfl ?_
    show renderCur pre (hw :: ht) ++ ' ' :: wd = renderCur pre ((hw :: ht) ++ [wd])
    unfold renderCur
    rw [spjoin_append_single (hw :: ht) wd (by simp)]
    simp

theorem fmc_fold (pre : List Char) (mw : Nat) (ws : List (List Char)) :
    ∀ (gs : List (List (List Char))) (h : List (List Char)),
      (∀ x ∈ h, x ≠ []) → (∀ x ∈ ws, x ≠ []) →
      ∃ gs' h',
        ws.foldl (fmcStep pre mw) (renderLines pre gs, renderCur pre h)
          = (renderLines pre gs', renderCur pre h')
        ∧ gs'.flatten ++ h' = gs.flatten ++ h ++ ws
        ∧ (∀ x ∈ h', x ≠ [])
        ∧ (h' = [] → h = [] ∧ ws = []) := by
  induction ws with
  | nil =>
    intro gs h hh _
    exact ⟨gs, h, rfl, by simp, hh, fun hh' => ⟨hh', rfl⟩⟩
  | cons wd ws' ih =>
    intro gs h hh hws
    have hwd : wd ≠ [] := hws wd (by simp)
    have hws' : ∀ x ∈ ws', x ≠ [] := fun x hx => hws x (by simp [hx])
    rw [List.foldl_cons]
    cases h with
    | nil =>
      rw [fmcStep_renderNil]
      by_cases hc : mw < pre.length + wd.length
      · rw [if_pos hc]
        obtain ⟨gs', h', heq, hflat, hh', himp⟩ :=
          ih (gs ++ [[]]) [wd]
            (by
              intro x hx
              simp only [List.mem_singleton] at hx
              subst hx
              exact hwd)
            hws'
        refine ⟨gs', h', heq, ?_, hh', ?_⟩
        · rw [hflat]; simp
        · intro hh'
          exact absurd (himp hh').1 (by simp)
      · rw [if_neg hc]
        obtain ⟨gs', h', heq, hflat, hh', himp⟩ :=
          ih gs [wd]
            (by
              intro x hx
              simp only [List.mem_singleton] at hx
              subst hx
              exact hwd)
            hws'
        refine ⟨gs', h', heq, ?_, hh', ?_⟩
        · rw [hflat]; simp
        · intro hh'
          exact absurd (himp hh').1 (by simp)
    | cons hw ht =>
      have hhw : hw ≠ [] := hh hw (by simp)
      rw [fmcStep_renderCons pre mw gs hw ht wd hhw]
      by_cases hc : mw < (renderCur pre (hw :: ht)).length + wd.length + 1
      · rw [if_pos hc]
        obtain ⟨gs', h', heq, hflat, hh', himp⟩ :=
          ih (gs ++ [hw :: ht]) [wd]
            (by
              intro x hx
              simp only [List.mem_singleton] at hx
              subst hx
              exact hwd)
            hws'
        refine ⟨gs', h', heq, ?_, hh', ?_⟩
        · rw [hflat]; simp
        · intro hh'
          exact absurd (himp hh').1 (by simp)
      · rw [if_neg hc]
        obtain ⟨gs', h', heq, hflat, hh', himp⟩ :=
          ih gs ((hw :: ht) ++ [wd])
            (by
              intro x hx
              rcases List.mem_append.mp hx with hx | hx
              · exact hh x hx
              · simp only [List.mem_singleton] at hx
                subst hx
                exact hwd)
            hws'
        refine ⟨gs', h', heq, ?_, hh', ?_⟩
        · rw [hflat]; simp
        · intro hh'
          exact absurd (himp hh').1 (by simp)

theorem splitNl_render (pre : List Char)
    (hpre : pre.all (fun c => !(c = '\n')) = true) :
    ∀ (gs : List (List (List Char))) (h : List (List Char)),
      (∀ g ∈ gs, ∀ w ∈ g, w.all (fun c => !(c = '\n')) = true) →
      (∀ w ∈ h, w.all (fun c => !(c = '\n')) = true) →
      splitNl (renderLines pre gs ++ renderCur pre h)
        = gs.map (fun g => pre ++ spjoin g) ++ [pre ++ spjoin h] := by
  intro gs
  induction gs with
  | nil =>
    intro h _ hh
    rw [show renderLines pre [] = [] from rfl, List.nil_append]
    rw [splitNl_no_newline _ (by
      unfold renderCur
      simp only [List.all_append, Bool.and_eq_true]
      exact ⟨hpre, spjoin_all _ (by decide) h hh⟩)]
    rfl
  | cons g gs' ih =>
    intro h hgs hh
    have hline : (pre ++ spjoin g).all (fun c => !(c = '\n')) = true := by
      simp only [List.all_append, Bool.and_eq_true]
      exact ⟨hpre, spjoin_all _ (by decide) g (hgs g (by simp))⟩
    rw [show renderLines pre (g :: gs')
        = (pre ++ spjoin g) ++ '\n' :: renderLines pre gs' from by
      simp [renderLines]]
    simp only [List.append_assoc, List.cons_append]
    rw [show (pre ++ (spjoin g ++ '\n' :: (renderLines pre gs' ++ renderCur pre h)))
        = (pre ++ spjoin g) ++ '\n' :: (renderLines pre gs' ++ renderCur pre h) from by
      simp [List.append_assoc]]
    rw [splitNl_append_newline _ _ hline,
      ih h (fun g' hg' w hwm => hgs g' (by simp [hg']) w hwm) hh]
    simp

theorem flatten_map_splitWords (pre : List Char) :
    ∀ (gs : List (List (List Char))),
      (∀ g ∈ gs, ∀ w ∈ g, w ≠ [] ∧ w.all (fun c => !(cIsSpace c)) = true) →
      ((gs.map (fun g => pre ++ spjoin g)).map
          (fun l => splitWords (l.drop pre.length))).flatten = gs.flatten := by
  intro gs
  induction gs with
  | nil => intro _; rfl
  | cons g gs' ih =>
    intro hgs
    simp only [List.map_cons, List.flatten_cons]
    rw [List.drop_left, splitWords_spjoin g (hgs g (by simp)),
      ih (fun g' hg' w hwm => hgs g' (by simp [hg']) w hwm)]

/-- C9: the plain-text comment word-wrapper never splits a word: splitting the
wrapped output into lines, stripping each line's comment prefix and
re-tokenizing yields exactly the whitespace-delimited words of the input, in
order — so every word lies contiguous and unbroken on exactly one output
line — and whenever the input has at least one word, every output line begins
with the comment prefix. -/
theorem format_multiline_comment_preserves_words (text pre : List Char)
    (mw : Nat) (hpre : pre.all (fun c => !(c = '\n')) = true) :
    ((splitNl (format_multiline_comment text pre mw)).map
        (fun l => splitWords (l.drop pre.length))).flatten = splitWords text
    ∧ (splitWords text ≠ [] →
        ∀ l ∈ splitNl (format_multiline_comment text pre mw), pre <+: l) := by
  rcases hsw : splitWords text with _ | ⟨wd, rest⟩
  · have hout : format_multiline_comment text pre mw = [] := by
      unfold format_multiline_comment
      rw [hsw]
      simp only [List.foldl_nil]
      have hnn : ¬(pre ≠ pre) := fun hh => hh rfl
      rw [if_neg hnn]
    rw [hout]
    constructor
    · simp [splitNl, splitWords, splitWordsGo]
    · intro hne
      exact absurd rfl hne
  · have hwords := splitWords_sound text
    rw [hsw] at hwords
    obtain ⟨gs', h', heq, hflat, hh', himp⟩ :=
      fmc_fold pre mw (wd :: rest) [] [] (by simp) (fun x hx => (hwords x hx).1)
    simp only [List.flatten_nil, List.nil_append, List.append_nil] at hflat
    have hne' : h' ≠ [] := fun hh0 => absurd (himp hh0).2 (by simp)
    cases h' with
    | nil => exact absurd rfl hne'
    | cons h'w h't =>
      have hfold : (wd :: rest).foldl (fmcStep pre mw) ([], pre)
          = (renderLines pre gs', renderCur pre (h'w :: h't)) := by
        rw [show (([] : List Char), pre) = (renderLines pre [], renderCur pre []) from by
          simp [renderLines, renderCur, spjoin]]
        exact heq
      have hcurne : renderCur pre (h'w :: h't) ≠ pre := by
        unfold renderCur
        exact append_ne_left pre _ (spjoin_cons_ne_nil h'w h't (hh' h'w (by simp)))
      have hout : format_multiline_comment text pre mw
          = renderLines pre gs' ++ renderCur pre (h'w :: h't) := by
        unfold format_multiline_comment
        rw [hsw, hfold]
        dsimp only
        rw [if_pos hcurne]
      have hgood : ∀ w, w ∈ gs'.flatten ++ (h'w :: h't) →
          w ≠ [] ∧ w.all (fun c => !(cIsSpace c)) = true :=
        fun w hwmem => hwords w (hflat ▸ hwmem)
      have hnlw : ∀ w, w ∈ gs'.flatten ++ (h'w :: h't) →
          w.all (fun c => !(c = '\n')) = true := by
        intro w hwmem
        refine all_mono ?_ w (hgood w hwmem).2
        intro c hc
        rcases Decidable.eq_or_ne c '\n' with rfl | hcn
        · exact absurd hc (by decide)
        · simp [hcn]
      have hsplit : splitNl (renderLines pre gs' ++ renderCur pre (h'w :: h't))
          = gs'.map (fun g => pre ++ spjoin g) ++ [pre ++ spjoin (h'w :: h't)] :=
        splitNl_render pre hpre gs' (h'w :: h't)
          (fun g hg w hwg =>
            hnlw w (List.mem_append_left _ (List.mem_flatten.mpr ⟨g, hg, hwg⟩)))
          (fun w hwg => hnlw w (List.mem_append_right _ hwg))
      rw [hout, hsplit]
      constructor
      · rw [List.map_append, List.flatten_append,
          flatten_map_splitWords pre gs'
            (fun g hg w hwg =>
              hgood w (List.mem_append_left _ (List.mem_flatten.mpr ⟨g, hg, hwg⟩)))]
        simp only [List.map_cons, List.map_nil, List.flatten_cons, List.flatten_nil,
          List.append_nil]
        rw [List.drop_left,
          splitWords_spjoin (h'w :: h't)
            (fun w hwg => hgood w (List.mem_append_right _ hwg))]
        exact hflat
      · intro _ l hl
        rcases List.mem_append.mp hl with hl | hl
        · obtain ⟨g, _, rfl⟩ := List.mem_map.mp hl
          exact ⟨spjoin g, rfl⟩
        · simp only [List.mem_singleton] at hl
          subst hl
          exact ⟨spjoin (h'w :: h't), rfl⟩

/-- C9 witness: the wrapper theorem at a concrete text, prefix and width that
force a line break. -/
theorem format_multiline_comment_preserves_words_witness :
    ((splitNl (format_multiline_comment "hello brave new world".toList
          "--   ".toList 12)).map
        (fun l => splitWords (l.drop "--   ".toList.length))).flatten
      = splitWords "hello brave new world".toList
    ∧ (splitWords "hello brave new world".toList ≠ [] →
        ∀ l ∈ splitNl (format_multiline_comment "hello brave new world".toList
            "--   ".toList 12),
          "--   ".toList <+: l) :=
  format_multiline_comment_preserves_words "hello brave new world".toList
    "--   ".toList 12 (by decide)

end PgAi
